import Mathlib

/-!
Verification development for the `amplifier-foundation` bundle system.

The Python sources under `src/amplifier_foundation/` are shallowly embedded:
pure functions become Lean functions over `List Char` strings and
association-list dictionaries; stateful code (the bundle registry, the
content deduplicator, `Bundle.compose`'s in-place writes) is embedded as
explicit state passing over small heaps; fallible code returns
`Option`/`Except`.  Filesystem and network effects are abstracted as oracle
functions passed explicitly.

The module `amplifier_foundation/dicts/merge.py` (`deep_merge`,
`merge_module_lists`) is not present in the source tree (only its callers
are); those two functions are modelled from the spec, as marked in their
doc comments.
-/

set_option autoImplicit false
set_option linter.unusedVariables false

namespace AmplifierFoundation

/-! ## Basic string utilities (over `List Char`)

Python string operations used by the sources, embedded over `List Char`.
-/

abbrev Chars := List Char

/-- Embeds Python `s.startswith(pre)`. -/
def startsWithL (pre s : Chars) : Bool := pre.isPrefixOf s

/-- Embeds Python `s.split(sep, 1)` for a one-character separator, under the
assumption that `sep` occurs in `s` (the callers guard on membership):
returns the part before the first occurrence and the part after it. -/
def splitFirst (sep : Char) (s : Chars) : Chars × Chars :=
  (s.takeWhile (fun c => c ≠ sep), (s.dropWhile (fun c => c ≠ sep)).drop 1)

/-- Embeds Python `s.split(sep)` for a one-character separator (no limit,
no collapsing of empty parts). -/
def splitAll (sep : Char) : Chars → List Chars
  | [] => [[]]
  | c :: rest =>
    if c = sep then [] :: splitAll sep rest
    else
      match splitAll sep rest with
      | [] => [[c]]
      | h :: t => (c :: h) :: t

/-! ## JSON-ish value tree

The spec's design notes call for a single tagged-variant tree of scalar,
sequence and mapping values for the dynamic, mapping-heavy configs
(`session`, module `config` blobs).  Dictionaries are association lists in
insertion order, matching Python `dict` semantics.
-/

inductive Value where
  | vnull : Value
  | vbool : Bool → Value
  | vint : Int → Value
  | vstr : String → Value
  | vlist : List Value → Value
  | vmap : List (String × Value) → Value

/-- Embeds Python `d.get(k)` on an insertion-ordered dict. -/
def lookupV (k : String) : List (String × Value) → Option Value
  | [] => none
  | (k', v) :: rest => if k' = k then some v else lookupV k rest

/-- Embeds Python `d[k] = v` on an insertion-ordered dict: an existing key
keeps its position, a new key is appended. -/
def setKey (m : List (String × Value)) (k : String) (v : Value) :
    List (String × Value) :=
  match m with
  | [] => [(k, v)]
  | (k', v') :: rest =>
    if k' = k then (k, v) :: rest else (k', v') :: setKey rest k v

-- Modelled from the spec: `deep_merge` from the missing module
-- `amplifier_foundation/dicts/merge.py`.  Per spec §4.4 (session rule) and
-- §9 design notes: a recursive map merge — the override dict is folded into
-- the base in order; for each shared key, if both sides are maps, merge
-- recursively; otherwise the later value wins; keys of the base not
-- re-declared by the override are kept.
mutual

def mergeValue : Value → Value → Value
  | Value.vmap m1, Value.vmap m2 => Value.vmap (mergeEntries m1 m2)
  | _, v2 => v2
termination_by structural v1 v2 => v2

def mergeEntries : List (String × Value) → List (String × Value) →
    List (String × Value)
  | m1, [] => m1
  | m1, (k, v2) :: rest =>
    let newV :=
      match lookupV k m1 with
      | some v1 => mergeValue v1 v2
      | none => v2
    mergeEntries (setKey m1 k newV) rest
termination_by structural m1 m2 => m2

end

/-- Embeds the dict produced by `deep_merge(base, override)` on two dicts
(how `Bundle.compose` invokes it on `session`). -/
def deep_merge (base override : List (String × Value)) :
    List (String × Value) :=
  mergeEntries base override

/-- Module key of a provider/tool/hook spec: Python `spec.get("module")`
(`none` when the spec is not a dict or has no string `module` key; per the
spec's data model, module ids are strings). -/
def moduleOf : Value → Option String
  | Value.vmap e =>
    match lookupV "module" e with
    | some (Value.vstr s) => some s
    | _ => none
  | _ => none

/-- One override entry folded into a module spec during `mergeSpec`:
`config` against an existing `config` map is deep-merged, every other key
is later-wins. -/
def mergeSpecStep (acc : List (String × Value)) (kv : String × Value) :
    List (String × Value) :=
  if kv.1 = "config" then
    match lookupV "config" acc, kv.2 with
    | some (Value.vmap c1), Value.vmap c2 =>
      setKey acc "config" (Value.vmap (deep_merge c1 c2))
    | _, _ => setKey acc kv.1 kv.2
  else setKey acc kv.1 kv.2

/-- Modelled from the spec: merge of two module specs sharing a `module`
key, per spec §4.4 — their `config` maps are merged recursively
(later wins on leaves) and non-`config` sibling keys are later-wins. -/
def mergeSpec : Value → Value → Value
  | Value.vmap e1, Value.vmap e2 => Value.vmap (e2.foldl mergeSpecStep e1)
  | _, v2 => v2

/-- Replaces the first element of `l` with module key `m` by its
`mergeSpec` with `x`. -/
def replaceFirstSpec (m : String) (x : Value) : List Value → List Value
  | [] => []
  | s :: rest =>
    if moduleOf s = some m then mergeSpec s x :: rest
    else s :: replaceFirstSpec m x rest

/-- Modelled from the spec: `merge_module_lists` from the missing module
`amplifier_foundation/dicts/merge.py`.  Per spec §4.4 and property 5:
merge by `module` key preserving first-seen order — the result is `L1`
followed by the members of `L2` whose module is not in `L1`; when both
sides have a spec with the same `module`, the two specs are merged with
`mergeSpec`.  Specs without a `module` key are appended. -/
def mergeModuleStep (acc : List Value) (x : Value) : List Value :=
  match moduleOf x with
  | none => acc ++ [x]
  | some m =>
    if acc.any (fun s => moduleOf s == some m) then replaceFirstSpec m x acc
    else acc ++ [x]

def merge_module_lists (l1 l2 : List Value) : List Value :=
  l2.foldl mergeModuleStep l1

/-! ## Bundle model and `Bundle.compose` (src/amplifier_foundation/bundle.py)

Python `Bundle` is a mutable dataclass whose container-valued attributes
(lists and dicts) are heap objects aliased by reference.  To settle the
frame claim about `compose`, the embedding makes object identity explicit:
containers live in a heap indexed by allocation order, bundle objects live
in a bundle heap, and every statement of `compose` is translated as a
read, an allocation (`dict(...)`, `list(...)`, a fresh merge result), or a
write at an explicit reference.  Values nested inside a container are
treated as pure data (the one level of mutability that `compose` itself
exercises is the directly attached container).  `deep_merge` and
`merge_module_lists` are the spec-modelled pure functions above; per spec
§4.4 and invariant 5 they build fresh structures.  Filesystem paths are
embedded as strings.
-/

/-- Embeds Python `d.get(k)` on an insertion-ordered dict with values of
any type. -/
def lookupD {α : Type} (k : String) : List (String × α) → Option α
  | [] => none
  | (k', v) :: rest => if k' = k then some v else lookupD k rest

/-- Embeds Python `d[k] = v` on an insertion-ordered dict with values of
any type: an existing key keeps its position, a new key is appended. -/
def setKeyD {α : Type} (m : List (String × α)) (k : String) (v : α) :
    List (String × α) :=
  match m with
  | [] => [(k, v)]
  | (k', v') :: rest =>
    if k' = k then (k, v) :: rest else (k', v') :: setKeyD rest k v

/-- Embeds Python `base.update(other)` on insertion-ordered dicts. -/
def dictUpdate {α : Type} (base other : List (String × α)) :
    List (String × α) :=
  other.foldl (fun acc kv => setKeyD acc kv.1 kv.2) base

/-- A mutable Python container: a `str → str` dict (`context`,
`source_base_paths`, `_pending_context`; paths embedded as strings), a
`str → value` dict (`session`, `agents`), or a list of values
(`includes`, `providers`, `tools`, `hooks`). -/
inductive Container where
  | dictS : List (String × String) → Container
  | dictV : List (String × Value) → Container
  | listV : List Value → Container

/-- The container heap; a reference is an index, allocation appends. -/
abbrev Heap := List Container

def allocC (h : Heap) (c : Container) : Heap × Nat := (h ++ [c], h.length)

def getC (h : Heap) (r : Nat) : Container := h.getD r (Container.listV [])

def setC (h : Heap) (r : Nat) (c : Container) : Heap := h.set r c

def getDictS (h : Heap) (r : Nat) : List (String × String) :=
  match getC h r with
  | Container.dictS e => e
  | _ => []

def getDictV (h : Heap) (r : Nat) : List (String × Value) :=
  match getC h r with
  | Container.dictV e => e
  | _ => []

def getListV (h : Heap) (r : Nat) : List Value :=
  match getC h r with
  | Container.listV e => e
  | _ => []

/-- A Python `Bundle` object: scalar attributes inline (Python strings and
`None` are immutable), container attributes as heap references, fields in
dataclass order. -/
structure BundleObj where
  name : String
  version : String
  description : String
  includesRef : Nat
  sessionRef : Nat
  providersRef : Nat
  toolsRef : Nat
  hooksRef : Nat
  agentsRef : Nat
  contextRef : Nat
  instruction : Option String
  basePath : Option String
  sourceBasePathsRef : Nat
  pendingContextRef : Nat

instance : Inhabited BundleObj :=
  ⟨⟨"", "", "", 0, 0, 0, 0, 0, 0, 0, none, none, 0, 0⟩⟩

/-- The bundle-object heap. -/
abbrev BHeap := List BundleObj

def getB (bh : BHeap) (r : Nat) : BundleObj := bh.getD r default

def setB (bh : BHeap) (r : Nat) (f : BundleObj → BundleObj) : BHeap :=
  bh.set r (f (getB bh r))

/-- Context-key prefixing used at bundle.py lines 91–96 and 155–161: if
`name` is non-empty and the key has no `:`, rewrite it to `name:key`. -/
def prefixKey (name key : String) : String :=
  if name ≠ "" ∧ ¬ key.data.contains (':') then name ++ ":" ++ key else key

/-- One iteration of the `for other in others` loop of `Bundle.compose`
(bundle.py lines 120–173), updating the heaps in source statement order.
All writes target the freshly constructed result object and the containers
attached to it. -/
def composeStep (st : BHeap × Heap × Nat) (otherRef : Nat) :
    BHeap × Heap × Nat :=
  let bh0 := st.1
  let hh0 := st.2.1
  let resultRef := st.2.2
  let other := getB bh0 otherRef
  -- lines 121–126: fold other's source_base_paths in, first write wins
  let osbp := getDictS hh0 other.sourceBasePathsRef
  let r1 := getB bh0 resultRef
  let rsbp1 := getDictS hh0 r1.sourceBasePathsRef
  let rsbp2 := osbp.foldl
    (fun acc nsp =>
      if (lookupD nsp.1 acc).isSome then acc else setKeyD acc nsp.1 nsp.2)
    rsbp1
  let hp1 := setC hh0 r1.sourceBasePathsRef (Container.dictS rsbp2)
  -- lines 128–134: other's own namespace as fallback
  let r2 := getB bh0 resultRef
  let rsbp3 := getDictS hp1 r2.sourceBasePathsRef
  let hp2 :=
    if other.name ≠ "" ∧ other.basePath.isSome ∧
        (lookupD other.name rsbp3).isNone then
      setC hp1 r2.sourceBasePathsRef
        (Container.dictS (setKeyD rsbp3 other.name (other.basePath.getD "")))
    else hp1
  -- lines 137–140: metadata, later non-empty wins
  let sbh1 := setB bh0 resultRef (fun r =>
    { r with
      name := if other.name ≠ "" then other.name else r.name
      version := if other.version ≠ "" then other.version else r.version
      description :=
        if other.description ≠ "" then other.description else r.description })
  -- line 143: session deep merge, rebound to a fresh dict
  let r3 := getB sbh1 resultRef
  let pa1 := allocC hp2 (Container.dictV
    (deep_merge (getDictV hp2 r3.sessionRef) (getDictV hp2 other.sessionRef)))
  let hp3 := pa1.1
  let newSession := pa1.2
  let sbh2 := setB sbh1 resultRef (fun r0 => { r0 with sessionRef := newSession })
  -- lines 146–148: module lists merged by module id, rebound fresh
  let r4 := getB sbh2 resultRef
  let pa2 := allocC hp3 (Container.listV
    (merge_module_lists (getListV hp3 r4.providersRef)
      (getListV hp3 other.providersRef)))
  let hp4 := pa2.1
  let newProviders := pa2.2
  let sbh3 := setB sbh2 resultRef
    (fun r0 => { r0 with providersRef := newProviders })
  let r5 := getB sbh3 resultRef
  let pa3 := allocC hp4 (Container.listV
    (merge_module_lists (getListV hp4 r5.toolsRef) (getListV hp4 other.toolsRef)))
  let hp5 := pa3.1
  let newTools := pa3.2
  let sbh4 := setB sbh3 resultRef (fun r0 => { r0 with toolsRef := newTools })
  let r6 := getB sbh4 resultRef
  let pa4 := allocC hp5 (Container.listV
    (merge_module_lists (getListV hp5 r6.hooksRef) (getListV hp5 other.hooksRef)))
  let hp6 := pa4.1
  let newHooks := pa4.2
  let sbh5 := setB sbh4 resultRef (fun r0 => { r0 with hooksRef := newHooks })
  -- line 151: result.agents.update(other.agents), in place
  let r7 := getB sbh5 resultRef
  let hp7 := setC hp6 r7.agentsRef
    (Container.dictV
      (dictUpdate (getDictV hp6 r7.agentsRef) (getDictV hp6 other.agentsRef)))
  -- lines 155–161: context accumulated in place with other's prefix
  let r8 := getB sbh5 resultRef
  let rctx := (getDictS hp7 other.contextRef).foldl
    (fun acc kv => setKeyD acc (prefixKey other.name kv.1) kv.2)
    (getDictS hp7 r8.contextRef)
  let hp8 := setC hp7 r8.contextRef (Container.dictS rctx)
  -- lines 164–165: pending context accumulated in place (guarded)
  let r9 := getB sbh5 resultRef
  let opc := getDictS hp8 other.pendingContextRef
  let hp9 :=
    if opc ≠ [] then
      setC hp8 r9.pendingContextRef
        (Container.dictS (dictUpdate (getDictS hp8 r9.pendingContextRef) opc))
    else hp8
  -- lines 168–169 and 172–173: instruction and base_path, truthy wins
  let sbh6 := setB sbh5 resultRef (fun r =>
    { r with
      instruction :=
        match other.instruction with
        | some s => if s ≠ "" then some s else r.instruction
        | none => r.instruction
      basePath :=
        match other.basePath with
        | some p => some p
        | none => r.basePath })
  (sbh6, hp9, resultRef)

/-- Embeds `Bundle.compose(self, *others)` (bundle.py lines 67–175): the
construction of the fresh result bundle (lines 83–118) followed by the
fold of `composeStep` over the other bundles.  Returns the updated heaps
and the reference of the freshly constructed result. -/
def composePy (bh : BHeap) (h : Heap) (selfRef : Nat)
    (otherRefs : List Nat) : BHeap × Heap × Nat :=
  let self := getB bh selfRef
  -- lines 83–87: initial source_base_paths
  let sbp0 := getDictS h self.sourceBasePathsRef
  let initialBasePaths :=
    if self.name ≠ "" ∧ self.basePath.isSome ∧
        (lookupD self.name sbp0).isNone then
      setKeyD sbp0 self.name (self.basePath.getD "")
    else sbp0
  -- lines 90–96: initial context with self's prefix
  let initialContext := (getDictS h self.contextRef).foldl
    (fun acc kv => setKeyD acc (prefixKey self.name kv.1) kv.2) []
  -- lines 99–101: copy of pending context
  let initialPending := getDictS h self.pendingContextRef
  -- lines 103–118: result = Bundle(...) with copied containers
  let qa1 := allocC h (Container.listV (getListV h self.includesRef))
  let hq1 := qa1.1
  let includesRef := qa1.2
  let qa2 := allocC hq1 (Container.dictV (getDictV hq1 self.sessionRef))
  let hq2 := qa2.1
  let sessionRef := qa2.2
  let qa3 := allocC hq2 (Container.listV (getListV hq2 self.providersRef))
  let hq3 := qa3.1
  let providersRef := qa3.2
  let qa4 := allocC hq3 (Container.listV (getListV hq3 self.toolsRef))
  let hq4 := qa4.1
  let toolsRef := qa4.2
  let qa5 := allocC hq4 (Container.listV (getListV hq4 self.hooksRef))
  let hq5 := qa5.1
  let hooksRef := qa5.2
  let qa6 := allocC hq5 (Container.dictV (getDictV hq5 self.agentsRef))
  let hq6 := qa6.1
  let agentsRef := qa6.2
  let qa7 := allocC hq6 (Container.dictS initialContext)
  let hq7 := qa7.1
  let contextRef := qa7.2
  let qa8 := allocC hq7 (Container.dictS initialPending)
  let hq8 := qa8.1
  let pendingRef := qa8.2
  let qa9 := allocC hq8 (Container.dictS initialBasePaths)
  let hq9 := qa9.1
  let sbpRef := qa9.2
  let resultRef := bh.length
  let bhR := bh ++ [{
    name := self.name
    version := self.version
    description := self.description
    includesRef := includesRef
    sessionRef := sessionRef
    providersRef := providersRef
    toolsRef := toolsRef
    hooksRef := hooksRef
    agentsRef := agentsRef
    contextRef := contextRef
    instruction := self.instruction
    basePath := self.basePath
    sourceBasePathsRef := sbpRef
    pendingContextRef := pendingRef : BundleObj }]
  otherRefs.foldl composeStep (bhR, hq9, resultRef)

/-- A pure view of a `Bundle`'s state, used to move bundles in and out of
the heap embedding. -/
structure BundleData where
  name : String := ""
  version : String := "1.0.0"
  description : String := ""
  includes : List Value := []
  session : List (String × Value) := []
  providers : List Value := []
  tools : List Value := []
  hooks : List Value := []
  agents : List (String × Value) := []
  context : List (String × String) := []
  instruction : Option String := none
  basePath : Option String := none
  sourceBasePaths : List (String × String) := []
  pendingContext : List (String × String) := []

/-- Pushes a bundle's state onto the heaps as a fresh object graph. -/
def pushBundle (bh : BHeap) (h : Heap) (d : BundleData) :
    BHeap × Heap × Nat :=
  let (h, includesRef) := allocC h (Container.listV d.includes)
  let (h, sessionRef) := allocC h (Container.dictV d.session)
  let (h, providersRef) := allocC h (Container.listV d.providers)
  let (h, toolsRef) := allocC h (Container.listV d.tools)
  let (h, hooksRef) := allocC h (Container.listV d.hooks)
  let (h, agentsRef) := allocC h (Container.dictV d.agents)
  let (h, contextRef) := allocC h (Container.dictS d.context)
  let (h, pendingRef) := allocC h (Container.dictS d.pendingContext)
  let (h, sbpRef) := allocC h (Container.dictS d.sourceBasePaths)
  let bh' := bh ++ [{
    name := d.name
    version := d.version
    description := d.description
    includesRef := includesRef
    sessionRef := sessionRef
    providersRef := providersRef
    toolsRef := toolsRef
    hooksRef := hooksRef
    agentsRef := agentsRef
    contextRef := contextRef
    instruction := d.instruction
    basePath := d.basePath
    sourceBasePathsRef := sbpRef
    pendingContextRef := pendingRef : BundleObj }]
  (bh', h, bh.length)

/-- Reads a bundle's state back out of the heaps. -/
def readBundle (bh : BHeap) (h : Heap) (r : Nat) : BundleData :=
  let b := getB bh r
  { name := b.name
    version := b.version
    description := b.description
    includes := getListV h b.includesRef
    session := getDictV h b.sessionRef
    providers := getListV h b.providersRef
    tools := getListV h b.toolsRef
    hooks := getListV h b.hooksRef
    agents := getDictV h b.agentsRef
    context := getDictS h b.contextRef
    instruction := b.instruction
    basePath := b.basePath
    sourceBasePaths := getDictS h b.sourceBasePathsRef
    pendingContext := getDictS h b.pendingContextRef }

/-- Pure interface to `Bundle.compose`: loads the bundles onto fresh
heaps, runs the heap embedding, and reads the result back. -/
def composeBundles (d : BundleData) (others : List BundleData) : BundleData :=
  let start := pushBundle [] [] d
  let loaded := others.foldl
    (fun acc o =>
      let p := pushBundle acc.1 acc.2.1 o
      (p.1, p.2.1, acc.2.2 ++ [p.2.2]))
    (start.1, start.2.1, ([] : List Nat))
  let res := composePy loaded.1 loaded.2.1 start.2.2 loaded.2.2
  readBundle res.1 res.2.1 res.2.2

/-! ## URI parsing (src/amplifier_foundation/paths/resolution.py)

Strings are embedded as `List Char`.  `urllib.parse.urlparse` is embedded
for the shapes the callers feed it: the fragment is always stripped by the
caller (so `#` handling is not needed), query splitting on `?` is
modelled, the rare params split on `;` is not, and `.lower()` on the
scheme is modelled as ASCII lowering.
-/

/-- Embeds `ParsedURI` (resolution.py lines 31–64), fields as in the
dataclass. -/
structure ParsedURI where
  scheme : Chars
  host : Chars
  path : Chars
  ref : Chars
  subpath : Chars
deriving DecidableEq, Repr

/-- Embeds the `is_git` property: `scheme == "git" or
scheme.startswith("git+")`. -/
def ParsedURI.is_git (p : ParsedURI) : Bool :=
  p.scheme == ("git".data) || startsWithL ("git+".data) p.scheme

/-- Embeds the `is_file` property: `scheme == "file" or (scheme == "" and
"/" in path)`. -/
def ParsedURI.is_file (p : ParsedURI) : Bool :=
  p.scheme == ("file".data) || (p.scheme == ([] : Chars) && p.path.contains ('/'))

/-- Embeds the `is_http` property: `scheme in ("http", "https")`. -/
def ParsedURI.is_http (p : ParsedURI) : Bool :=
  p.scheme == ("http".data) || p.scheme == ("https".data)

/-- Embeds the `is_zip` property: `scheme.startswith("zip+")`. -/
def ParsedURI.is_zip (p : ParsedURI) : Bool :=
  startsWithL ("zip+".data) p.scheme

/-- Embeds the `is_package` property: `scheme == "" and "/" not in
path`. -/
def ParsedURI.is_package (p : ParsedURI) : Bool :=
  p.scheme == ([] : Chars) && !(p.path.contains ('/'))

/-- Embeds `_extract_subdirectory_from_fragment` (lines 135–155): split
the fragment on `&` and return the value of the first `subdirectory=`
pair, else the empty string. -/
def extractSubdirectoryFromFragment (fragment : Chars) : Chars :=
  if fragment = [] then []
  else
    match (splitAll ('&') fragment).find?
        (fun part => startsWithL ("subdirectory=".data) part) with
    | some part => part.drop 13
    | none => []

/-- Embeds `_extract_fragment_subpath` (lines 158–171). -/
def extractFragmentSubpath (s : Chars) : Chars × Chars :=
  if s.contains ('#') then
    let ps := splitFirst ('#') s
    (ps.1, extractSubdirectoryFromFragment ps.2)
  else (s, [])

/-- ASCII letter test (embeds the `isalpha` requirement on the first
scheme character for the ASCII inputs in scope). -/
def isAsciiAlpha (c : Char) : Bool :=
  decide ((97 ≤ c.toNat ∧ c.toNat ≤ 122) ∨ (65 ≤ c.toNat ∧ c.toNat ≤ 90))

/-- ASCII digit test. -/
def isAsciiDigit (c : Char) : Bool :=
  decide (48 ≤ c.toNat ∧ c.toNat ≤ 57)

/-- Characters that may follow the first character of a URL scheme, per
`urllib.parse`. -/
def validSchemeChar (c : Char) : Bool :=
  isAsciiAlpha c || isAsciiDigit c || c == '+' || c == '-' || c == '.'

/-- Whether the text before the first `:` is a valid URL scheme, per
`urllib.parse` (first character a letter, the rest scheme characters). -/
def validScheme : Chars → Bool
  | [] => false
  | c :: rest => isAsciiAlpha c && rest.all validSchemeChar

/-- Result shape of the embedded `urllib.parse.urlparse` (the fields the
callers read). -/
structure UrlParts where
  scheme : Chars
  netloc : Chars
  path : Chars
deriving DecidableEq, Repr

/-- Embeds `urllib.parse.urlparse` on a URL whose fragment has already
been stripped: optional scheme before the first `:` (lowercased if
valid), optional `//netloc` delimited by `/` or `?`, path up to the
query `?`. -/
def urlparseNoFrag (s : Chars) : UrlParts :=
  let sr :=
    if s.contains (':') then
      let ps := splitFirst (':') s
      if validScheme ps.1 then (ps.1.map Char.toLower, ps.2) else ([], s)
    else ([], s)
  let nr :=
    if startsWithL ("//".data) sr.2 then
      let r := sr.2.drop 2
      (r.takeWhile (fun c => c != '/' && c != '?'),
       r.dropWhile (fun c => c != '/' && c != '?'))
    else ([], sr.2)
  ⟨sr.1, nr.1, nr.2.takeWhile (fun c => c != '?')⟩

/-- Embeds `re.match(r"^([^@]+)@([^/]+)(.*)$", path)` (resolution.py line
204): group 1 is the maximal non-`@` prefix (required non-empty, ended by
the first `@`), group 2 the following maximal non-`/` run (required
non-empty), group 3 the rest matched by `.*$` — `.` does not cross a
newline and `$` also matches just before a trailing newline, so the match
fails if the rest still contains a newline elsewhere. -/
def vcsRegexMatch (s : Chars) : Option (Chars × Chars × Chars) :=
  let p1 := s.takeWhile (fun c => c != '@')
  match p1, s.dropWhile (fun c => c != '@') with
  | _ :: _, _ :: afterAt =>
    let r := afterAt.takeWhile (fun c => c != '/')
    if r = [] then none
    else
      let rest3 := afterAt.drop r.length
      if rest3.getLast? = some '\n' then
        if rest3.dropLast.contains ('\n') then none
        else some (p1, r, rest3.dropLast)
      else if rest3.contains ('\n') then none
      else some (p1, r, rest3)
  | _, _ => none

/-- Embeds `_parse_vcs_uri` (lines 174–220): strip the prefix, extract the
`#subdirectory=` fragment, urlparse the remainder, extract `@ref` and the
legacy subpath with the regex, and let a non-empty fragment subdirectory
win over the legacy subpath. -/
def parseVcsUri (uri : Chars) (pfx : Chars) : ParsedURI :=
  let uriNoPfx := uri.drop pfx.length
  let fp :=
    if uriNoPfx.contains ('#') then
      let ps := splitFirst ('#') uriNoPfx
      (ps.1, extractSubdirectoryFromFragment ps.2)
    else (uriNoPfx, [])
  let parsed := urlparseNoFrag fp.1
  let prl :=
    if parsed.path.contains ('@') then
      match vcsRegexMatch parsed.path with
      | some m => (m.1, m.2.1, m.2.2.dropWhile (fun c => c == '/'))
      | none => (parsed.path, ([] : Chars), ([] : Chars))
    else (parsed.path, ([] : Chars), ([] : Chars))
  let subpath := if fp.2 ≠ [] then fp.2 else prl.2.2
  ⟨pfx ++ parsed.scheme, parsed.netloc, prl.1, prl.2.1, subpath⟩

/-- Embeds `parse_uri` (lines 67–132): the dispatch over URI shapes. -/
def parse_uri (uri : Chars) : ParsedURI :=
  if startsWithL ("git+".data) uri then parseVcsUri uri ("git+".data)
  else if startsWithL ("zip+".data) uri then parseVcsUri uri ("zip+".data)
  else if startsWithL ("file://".data) uri then
    let ps := extractFragmentSubpath (uri.drop 7)
    ⟨"file".data, [], ps.1, [], ps.2⟩
  else if startsWithL ("/".data) uri then ⟨"file".data, [], uri, [], []⟩
  else if startsWithL ("./".data) uri || startsWithL ("../".data) uri then
    ⟨"file".data, [], uri, [], []⟩
  else if startsWithL ("http://".data) uri ||
      startsWithL ("https://".data) uri then
    let pre := if uri.contains ('#') then splitFirst ('#') uri else (uri, [])
    let parsed := urlparseNoFrag pre.1
    ⟨parsed.scheme, parsed.netloc, parsed.path, [],
      extractSubdirectoryFromFragment pre.2⟩
  else if uri.contains ('/') then
    let ps := splitFirst ('/') uri
    ⟨[], [], ps.1, [], ps.2⟩
  else ⟨[], [], uri, [], []⟩

/-! ## Mention extraction (src/amplifier_foundation/mentions/parser.py)

`_remove_code_blocks` applies `re.sub(r"```[^\n]*\n.*?```", "", text,
flags=DOTALL)` and then ``re.sub(r"`[^`]+`", "", text)``; `parse_mentions`
then scans with ``@(?!EMAIL)([a-zA-Z0-9_:./\-]+)`` and deduplicates
preserving order.  The regex passes are embedded as left-to-right
scanners that reproduce `re` semantics: on a failed match the scan
advances one character, on a success it continues at the match end;
greedy character-class runs are maximal runs, the non-greedy `.*?` takes
the first closing fence.  A fence opening whose line has no newline
afterwards, or no closing ``` after it, can be emitted verbatim: no fence
match can start later in that suffix either.
-/

/-- Character class of the mention capture group `[a-zA-Z0-9_:./\-]`. -/
def isMentionChar (c : Char) : Bool :=
  isAsciiAlpha c || isAsciiDigit c || c == '_' || c == ':' || c == '.' ||
    c == '/' || c == '-'

/-- Character class `[a-zA-Z0-9._%+-]` (email local part). -/
def isEmailLocalChar (c : Char) : Bool :=
  isAsciiAlpha c || isAsciiDigit c || c == '.' || c == '_' || c == '%' ||
    c == '+' || c == '-'

/-- Character class `[a-zA-Z0-9.-]` (email domain). -/
def isEmailDomainChar (c : Char) : Bool :=
  isAsciiAlpha c || isAsciiDigit c || c == '.' || c == '-'

/-- Whether `[a-zA-Z]{2,}` matches at the start of `t`. -/
def alpha2 : Chars → Bool
  | a :: b :: _ => isAsciiAlpha a && isAsciiAlpha b
  | _ => false

/-- Whether `[a-zA-Z0-9.-]+\.[a-zA-Z]{2,}` matches at the start of the
input; `seen` records whether at least one domain character has been
consumed before the candidate dot. -/
def emailDomainGo : Chars → Bool → Bool
  | [], _ => false
  | c :: rest, seen =>
    if c == '.' && seen && alpha2 rest then true
    else if isEmailDomainChar c then emailDomainGo rest true
    else false

/-- Whether the negative-lookahead body
`[a-zA-Z0-9._%+-]+@[a-zA-Z0-9.-]+\.[a-zA-Z]{2,}` matches at the start of
`t` (the text immediately after the scanned `@`).  The local-part run is
the maximal one; since `@` is not a local character no shorter run can be
followed by `@`. -/
def emailLookahead (t : Chars) : Bool :=
  let run := t.takeWhile isEmailLocalChar
  if run = [] then false
  else
    match t.drop run.length with
    | c :: rest => c == '@' && emailDomainGo rest false
    | [] => false

-- Embeds the first `re.sub` of `_remove_code_blocks` (parser.py line 56):
-- removal of fenced blocks ```` ```[^\n]*\n.*?``` ````.  `rfT1`/`rfT2`
-- count opening backticks; `rfLang` consumes the fence line; `rfBody`,
-- `rfB1`, `rfB2` look for the closing fence, buffering the would-be match
-- so it can be emitted verbatim when no close exists.
mutual

def rfOut : Chars → Chars
  | [] => []
  | c :: rest => if c = '`' then rfT1 rest else c :: rfOut rest
termination_by structural l => l

def rfT1 : Chars → Chars
  | [] => ['`']
  | c :: rest => if c = '`' then rfT2 rest else '`' :: c :: rfOut rest
termination_by structural l => l

def rfT2 : Chars → Chars
  | [] => ['`', '`']
  | c :: rest =>
    if c = '`' then rfLang ['`', '`', '`'] rest
    else '`' :: '`' :: c :: rfOut rest
termination_by structural l => l

def rfLang (buf : Chars) : Chars → Chars
  | [] => buf
  | c :: rest =>
    if c = '\n' then rfBody (buf ++ [c]) rest else rfLang (buf ++ [c]) rest
termination_by structural l => l

def rfBody (buf : Chars) : Chars → Chars
  | [] => buf
  | c :: rest =>
    if c = '`' then rfB1 (buf ++ [c]) rest else rfBody (buf ++ [c]) rest
termination_by structural l => l

def rfB1 (buf : Chars) : Chars → Chars
  | [] => buf
  | c :: rest =>
    if c = '`' then rfB2 (buf ++ [c]) rest else rfBody (buf ++ [c]) rest
termination_by structural l => l

def rfB2 (buf : Chars) : Chars → Chars
  | [] => buf
  | c :: rest => if c = '`' then rfOut rest else rfBody (buf ++ [c]) rest
termination_by structural l => l

end

-- Embeds the second `re.sub` of `_remove_code_blocks` (parser.py line
-- 59): removal of inline code `` `[^`]+` ``.  `riIn` buffers the span
-- content; an empty span is not a match (the first backtick is emitted
-- and the second starts a new candidate); an unclosed opener is emitted
-- verbatim (no backticks remain, so no further match is possible).
mutual

def riOut : Chars → Chars
  | [] => []
  | c :: rest => if c = '`' then riIn [] rest else c :: riOut rest
termination_by structural l => l

def riIn (content : Chars) : Chars → Chars
  | [] => '`' :: content
  | c :: rest =>
    if c = '`' then
      if content = [] then '`' :: riIn [] rest
      else riOut rest
    else riIn (content ++ [c]) rest
termination_by structural l => l

end

/-- Embeds `_remove_code_blocks` (parser.py lines 48–61): fenced blocks
first, then inline code. -/
def removeCodeBlocks (t : Chars) : Chars := riOut (rfOut t)

-- Embeds `re.findall` with the mention pattern (parser.py lines 30–33):
-- at each `@`, if the email lookahead matches the position is skipped;
-- otherwise the maximal run of mention characters is captured (a match
-- needs at least one); scanning resumes after the match.
mutual

def fmOut : Chars → List Chars
  | [] => []
  | c :: rest =>
    if c = '@' then
      if emailLookahead rest then fmOut rest else fmCap [] rest
    else fmOut rest
termination_by structural l => l

def fmCap (cap : Chars) : Chars → List Chars
  | [] => if cap = [] then [] else ['@' :: cap]
  | c :: rest =>
    if isMentionChar c then fmCap (cap ++ [c]) rest
    else
      let tail :=
        if c = '@' then
          if emailLookahead rest then fmOut rest else fmCap [] rest
        else fmOut rest
      if cap = [] then tail else ('@' :: cap) :: tail
termination_by structural l => l

end

/-- Embeds the dedup loop of `parse_mentions` (parser.py lines 36–42):
keep the first occurrence of each mention, preserving order. -/
def dedupKeepFirst (seen : List Chars) : List Chars → List Chars
  | [] => []
  | x :: xs =>
    if x ∈ seen then dedupKeepFirst seen xs
    else x :: dedupKeepFirst (x :: seen) xs

/-- Embeds `parse_mentions` (parser.py lines 8–45). -/
def parse_mentions (text : Chars) : List Chars :=
  dedupKeepFirst [] (fmOut (removeCodeBlocks text))

/-! ### Code-span decompositions

To state that mentions inside code spans are never extracted, an input is
decomposed into plain text, inline code spans and fenced code blocks; the
well-formedness conditions mirror the regex semantics: plain segments are
backtick-free (stray backticks open spans of their own), inline bodies
are non-empty (``` `[^`]+` ``` needs one character) and backtick-free,
fence info lines are newline-free, fence bodies are backtick-free, and an
inline span is not immediately followed by another span (adjacent
backticks fuse into a fence opener for the first `re.sub` pass). -/

/-- A segment of a decomposed input: plain text, an inline code span
`` `body` ``, or a fenced block ```` ```lang\nbody``` ````. -/
inductive Seg where
  | plain : Chars → Seg
  | inline : Chars → Seg
  | fenced : Chars → Chars → Seg

/-- The text a segment denotes. -/
def renderSeg : Seg → Chars
  | Seg.plain a => a
  | Seg.inline b => '`' :: (b ++ ['`'])
  | Seg.fenced l b => '`' :: '`' :: '`' :: (l ++ '\n' :: (b ++ ['`', '`', '`']))

/-- The text a decomposition denotes. -/
def renderSegs (l : List Seg) : Chars := (l.map renderSeg).join

/-- The plain (non-code) text of a decomposition. -/
def plainOf (l : List Seg) : Chars :=
  (l.map (fun s => match s with | Seg.plain a => a | _ => [])).join

/-- Whether what follows an inline span starts with plain text (or
nothing): the separation the regex semantics need between spans. -/
def sepOk : List Seg → Bool
  | [] => true
  | Seg.plain a :: _ => decide (a ≠ [])
  | _ => false

/-- Well-formedness of a decomposition (see the section comment). -/
def okSegs : List Seg → Bool
  | [] => true
  | Seg.plain a :: rest => decide (('`') ∉ a) && okSegs rest
  | Seg.inline b :: rest =>
    decide (b ≠ []) && decide (('`') ∉ b) && sepOk rest && okSegs rest
  | Seg.fenced l b :: rest =>
    decide (('\n') ∉ l) && decide (('`') ∉ b) && okSegs rest

/-- A decomposition with its fenced blocks removed (what survives the
first `re.sub` pass). -/
def removeFenced : List Seg → List Seg
  | [] => []
  | Seg.fenced _ _ :: rest => removeFenced rest
  | s :: rest => s :: removeFenced rest

/-! ## SHA-256 and the content deduplicator
(src/amplifier_foundation/mentions/deduplicator.py)

`ContentDeduplicator.add_file` hashes
`hashlib.sha256(content.encode()).hexdigest()`; SHA-256 over the UTF-8
bytes is embedded here with 32-bit words as `Nat` reduced mod `2^32`.
-/

/-- Reduction to a 32-bit word. -/
def w32 (x : Nat) : Nat := x % 4294967296

/-- 32-bit right rotation. -/
def rotr32 (x n : Nat) : Nat := w32 ((x >>> n) ||| (x <<< (32 - n)))

/-- 32-bit bitwise complement. -/
def not32 (x : Nat) : Nat := Nat.xor x 4294967295

/-- The SHA-256 round constants. -/
def shaK : List Nat :=
  [1116352408, 1899447441, 3049323471, 3921009573, 961987163, 1508970993,
   2453635748, 2870763221, 3624381080, 310598401, 607225278, 1426881987,
   1925078388, 2162078206, 2614888103, 3248222580, 3835390401, 4022224774,
   264347078, 604807628, 770255983, 1249150122, 1555081692, 1996064986,
   2554220882, 2821834349, 2952996808, 3210313671, 3336571891, 3584528711,
   113926993, 338241895, 666307205, 773529912, 1294757372, 1396182291,
   1695183700, 1986661051, 2177026350, 2456956037, 2730485921, 2820302411,
   3259730800, 3345764771, 3516065817, 3600352804, 4094571909, 275423344,
   430227734, 506948616, 659060556, 883997877, 958139571, 1322822218,
   1537002063, 1747873779, 1955562222, 2024104815, 2227730452, 2361852424,
   2428436474, 2756734187, 3204031479, 3329325298]

/-- The SHA-256 initial hash state. -/
def shaH0 : List Nat :=
  [1779033703, 3144134277, 1013904242, 2773480762, 1359893119, 2600822924,
   528734635, 1541459225]

/-- Appends the next message-schedule word. -/
def shaNextWord (w : List Nat) : Nat :=
  let i := w.length
  let x15 := w.getD (i - 15) 0
  let x2 := w.getD (i - 2) 0
  let s0 := Nat.xor (Nat.xor (rotr32 x15 7) (rotr32 x15 18)) (x15 >>> 3)
  let s1 := Nat.xor (Nat.xor (rotr32 x2 17) (rotr32 x2 19)) (x2 >>> 10)
  w32 (w.getD (i - 16) 0 + s0 + w.getD (i - 7) 0 + s1)

/-- Extends the 16-word schedule by `n` further words. -/
def shaExtend (w : List Nat) : Nat → List Nat
  | 0 => w
  | n + 1 => shaExtend (w ++ [shaNextWord w]) n

/-- One SHA-256 compression round on the 8-word state. -/
def shaRound (st : List Nat) (kw : Nat × Nat) : List Nat :=
  match st with
  | [a, b, c, d, e, f, g, h] =>
    let s1 := Nat.xor (Nat.xor (rotr32 e 6) (rotr32 e 11)) (rotr32 e 25)
    let ch := Nat.xor (Nat.land e f) (Nat.land (not32 e) g)
    let temp1 := w32 (h + s1 + ch + kw.1 + kw.2)
    let s0 := Nat.xor (Nat.xor (rotr32 a 2) (rotr32 a 13)) (rotr32 a 22)
    let maj := Nat.xor (Nat.xor (Nat.land a b) (Nat.land a c)) (Nat.land b c)
    let temp2 := w32 (s0 + maj)
    [w32 (temp1 + temp2), a, b, c, w32 (d + temp1), e, f, g]
  | other => other

/-- Big-endian 4-byte groups to 32-bit words. -/
def bytesToWords : List Nat → List Nat
  | b0 :: b1 :: b2 :: b3 :: rest =>
    (b0 * 16777216 + b1 * 65536 + b2 * 256 + b3) :: bytesToWords rest
  | _ => []

/-- Compression of one 64-byte block into the running hash state. -/
def shaCompress (h : List Nat) (block : List Nat) : List Nat :=
  let w := shaExtend (bytesToWords block) 48
  let st := (shaK.zip w).foldl shaRound h
  (h.zip st).map (fun p => w32 (p.1 + p.2))

/-- Folds `n` 64-byte blocks of the padded message into the state. -/
def shaBlocks (h : List Nat) (msg : List Nat) : Nat → List Nat
  | 0 => h
  | n + 1 => shaBlocks (shaCompress h (msg.take 64)) (msg.drop 64) n

/-- Big-endian 8-byte encoding of the message bit length. -/
def shaLenBytes (n : Nat) : List Nat :=
  [n / 72057594037927936 % 256, n / 281474976710656 % 256,
   n / 1099511627776 % 256, n / 4294967296 % 256, n / 16777216 % 256,
   n / 65536 % 256, n / 256 % 256, n % 256]

/-- SHA-256 padding: `0x80`, zeros to 56 mod 64, then the bit length. -/
def shaPad (msg : List Nat) : List Nat :=
  msg ++ [128] ++ List.replicate ((119 - msg.length % 64) % 64) 0 ++
    shaLenBytes (8 * msg.length)

/-- SHA-256 of a byte sequence, as the 8-word state. -/
def sha256 (msg : List Nat) : List Nat :=
  shaBlocks shaH0 (shaPad msg) ((shaPad msg).length / 64)

/-- Lowercase hex digit. -/
def nibbleChar (n : Nat) : Char :=
  if n < 10 then Char.ofNat (48 + n) else Char.ofNat (87 + n)

/-- Lowercase 8-digit hex of a 32-bit word. -/
def wordHex (w : Nat) : Chars :=
  [nibbleChar (w / 268435456 % 16), nibbleChar (w / 16777216 % 16),
   nibbleChar (w / 1048576 % 16), nibbleChar (w / 65536 % 16),
   nibbleChar (w / 4096 % 16), nibbleChar (w / 256 % 16),
   nibbleChar (w / 16 % 16), nibbleChar (w % 16)]

/-- Embeds `hashlib.sha256(bytes).hexdigest()`. -/
def sha256hex (msg : List Nat) : Chars :=
  ((sha256 msg).map wordHex).flatten

/-- UTF-8 encoding of one character (Python `str.encode()`). -/
def utf8Char (c : Char) : List Nat :=
  let n := c.toNat
  if n < 128 then [n]
  else if n < 2048 then [192 + n / 64, 128 + n % 64]
  else if n < 65536 then
    [224 + n / 4096, 128 + n / 64 % 64, 128 + n % 64]
  else [240 + n / 262144, 128 + n / 4096 % 64, 128 + n / 64 % 64,
    128 + n % 64]

/-- UTF-8 encoding of a string (Python `content.encode()`). -/
def utf8 (s : Chars) : List Nat := (s.map utf8Char).flatten

/-- Embeds `hashlib.sha256(content.encode()).hexdigest()` on a `String`. -/
def sha256hexStr (content : String) : String :=
  String.mk (sha256hex (utf8 content.data))

/-- Embeds `ContextFile` (mentions/models.py): path, content and the
SHA-256 content hash. -/
structure ContextFile where
  path : String
  content : String
  content_hash : String
deriving DecidableEq, Repr

/-- The mutable state of a `ContentDeduplicator`: the set of seen hashes
(modelled as a list, membership is what matters) and the ordered file
list. -/
structure DedupState where
  seenHashes : List String
  files : List ContextFile
deriving DecidableEq, Repr

/-- Embeds `ContentDeduplicator()` (a fresh deduplicator). -/
def DedupState.init : DedupState := ⟨[], []⟩

/-- Embeds `ContentDeduplicator.add_file` (deduplicator.py lines 24–43):
returns whether the content was new, and the updated state. -/
def addFile (st : DedupState) (path content : String) : Bool × DedupState :=
  let h := sha256hexStr content
  if h ∈ st.seenHashes then (false, st)
  else (true, ⟨h :: st.seenHashes, st.files ++ [⟨path, content, h⟩]⟩)

/-- Embeds `ContentDeduplicator.get_unique_files` (lines 45–49). -/
def getUniqueFiles (st : DedupState) : List ContextFile := st.files

/-- Embeds `ContentDeduplicator.is_seen` (lines 51–61). -/
def isSeen (st : DedupState) (content : String) : Bool :=
  sha256hexStr content ∈ st.seenHashes

/-! ## Mention resolution and loading
(src/amplifier_foundation/mentions/resolver.py, loader.py)

`read_with_retry` (io/files.py) either returns the file text or raises
`FileNotFoundError`/`OSError`; it is abstracted as an oracle returning
`Except`.  The resolver protocol is an oracle `String → Option String`;
`BaseMentionResolver.resolve` is also embedded concretely below (path
joining embedded as `/`-concatenation, existence as an oracle). -/

/-- Embeds `MentionResult` (mentions/models.py). -/
structure MentionResult where
  mention : String
  resolved_path : Option String
  content : Option String
  error : Option String
deriving DecidableEq, Repr

/-- Embeds the `found` property: `resolved_path is not None and content is
not None`. -/
def MentionResult.found (r : MentionResult) : Bool :=
  r.resolved_path.isSome && r.content.isSome

/-- Embeds `construct_context_path` (paths/construction.py lines 26–40):
`base / "context" / name`, appending `.md` unless already present. -/
def construct_context_path (base name : String) : String :=
  if (".md".data).isSuffixOf name.data then base ++ "/context/" ++ name
  else base ++ "/context/" ++ name ++ ".md"

/-- Embeds `Bundle.resolve_context_path` (bundle.py lines 311–330):
registered context first, then the constructed path if it exists. -/
def resolveContextPath (pathExists : String → Bool) (b : BundleData)
    (name : String) : Option String :=
  match lookupD name b.context with
  | some p => some p
  | none =>
    match b.basePath with
    | some bp =>
      let p := construct_context_path bp name
      if pathExists p then some p else none
    | none => none

/-- Embeds `BaseMentionResolver.resolve` (mentions/resolver.py lines
36–67): `@ns:name` through the bundle registry, otherwise
`base_path / body` trying the literal path then `.md`; `None` on any
miss. -/
def baseResolve (bundles : List (String × BundleData)) (basePath : String)
    (pathExists : String → Bool) (mention : String) : Option String :=
  if ¬ startsWithL ("@".data) mention.data then none
  else
    let body := String.mk (mention.data.drop 1)
    if body.data.contains (':') then
      let parts := splitFirst (':') body.data
      match lookupD (String.mk parts.1) bundles with
      | some b => resolveContextPath pathExists b (String.mk parts.2)
      | none => none
    else
      let p := basePath ++ "/" ++ body
      if pathExists p then some p
      else
        let pmd := basePath ++ "/" ++ body ++ ".md"
        if pathExists pmd then some pmd else none

/-- The two ways the read of a resolved mention can fail: `osErr` stands
for the `FileNotFoundError`/`OSError` that `read_with_retry` re-raises and
`_resolve_mention` catches; `decodeErr` stands for the `UnicodeDecodeError`
that `path.read_text(encoding="utf-8")` raises on non-UTF-8 bytes, which
neither `read_with_retry` (it catches only `OSError`) nor
`_resolve_mention` (it catches only `(FileNotFoundError, OSError)`)
catches. -/
inductive ReadErr where
  | osErr : ReadErr
  | decodeErr : ReadErr
deriving DecidableEq, Repr

/-- Oracles for the mention loader: the resolver protocol and
`read_with_retry` with its two failure modes. -/
structure MentionEnv where
  resolve : String → Option String
  read : String → Except ReadErr String

-- Embeds `_resolve_mention` (mentions/loader.py lines 57–116) and its
-- nested-mention loop.  `fuel` is `max_depth - current_depth`: the source
-- recurses only while `current_depth < max_depth`, i.e. while `fuel` is
-- positive, with `current_depth + 1`.  A resolver miss and a caught read
-- error (`osErr`) produce a result with `error=none`; a duplicate content
-- hash produces `content=none`; an uncaught `UnicodeDecodeError`
-- (`decodeErr`) escapes as `Except.error`, from the nested loop too (the
-- recursive call sits under no `try`).
mutual

def resolveMention (env : MentionEnv) (fuel : Nat) (dedup : DedupState)
    (mention : String) : Except Unit (MentionResult × DedupState) :=
  match env.resolve mention with
  | none => Except.ok (⟨mention, none, none, none⟩, dedup)
  | some path =>
    match env.read path with
    | Except.error ReadErr.osErr =>
      Except.ok (⟨mention, some path, none, none⟩, dedup)
    | Except.error ReadErr.decodeErr => Except.error ()
    | Except.ok content =>
      let ad := addFile dedup path content
      if !ad.1 then Except.ok (⟨mention, some path, none, none⟩, ad.2)
      else
        match fuel with
        | 0 => Except.ok (⟨mention, some path, some content, none⟩, ad.2)
        | f + 1 =>
          match nestedMentions env f ad.2 (parse_mentions content.data) with
          | Except.error e => Except.error e
          | Except.ok d2 =>
            Except.ok (⟨mention, some path, some content, none⟩, d2)
termination_by (fuel, 0)

def nestedMentions (env : MentionEnv) (fuel : Nat) (dedup : DedupState) :
    List Chars → Except Unit DedupState
  | [] => Except.ok dedup
  | m :: rest =>
    match resolveMention env fuel dedup (String.mk m) with
    | Except.error e => Except.error e
    | Except.ok rd => nestedMentions env fuel rd.2 rest
termination_by l => (fuel, l.length + 1)

end

/-- The result-list loop of `load_mentions` (loader.py lines 40–52),
threading the deduplicator left to right; an exception from
`_resolve_mention` propagates (the loop has no `try`). -/
def loadMentionsAux (env : MentionEnv) (fuel : Nat) (dedup : DedupState) :
    List Chars → Except Unit (List MentionResult × DedupState)
  | [] => Except.ok ([], dedup)
  | m :: rest =>
    match resolveMention env fuel dedup (String.mk m) with
    | Except.error e => Except.error e
    | Except.ok rd =>
      match loadMentionsAux env fuel rd.2 rest with
      | Except.error e => Except.error e
      | Except.ok t => Except.ok (rd.1 :: t.1, t.2)

/-- Embeds `load_mentions` (loader.py lines 16–54): parse the mentions,
resolve each in order with the shared deduplicator. -/
def load_mentions (env : MentionEnv) (text : Chars) (dedup : DedupState)
    (maxDepth : Nat) : Except Unit (List MentionResult × DedupState) :=
  loadMentionsAux env maxDepth dedup (parse_mentions text)

/-! ## Registry rows and their persistence
(src/amplifier_foundation/registry.py, `BundleState`)

`datetime` values are embedded as their ISO strings (so `isoformat` /
`fromisoformat` are the identity); the JSON layer written by `save` and
read by `_load_persisted_state` is embedded as the dict tree itself
(`json.dump`/`json.load` round-trip the values in scope faithfully).  The
JSON values a row produces are only null, bool, string and list of
strings. -/

inductive JValue where
  | jnull : JValue
  | jbool : Bool → JValue
  | jstr : String → JValue
  | jstrlist : List String → JValue
deriving DecidableEq, Repr

/-- Embeds `BundleState` (registry.py lines 45–58), field defaults as in
the dataclass. -/
structure BundleState where
  uri : String
  name : String
  version : Option String := none
  loadedAt : Option String := none
  checkedAt : Option String := none
  localPath : Option String := none
  includes : Option (List String) := none
  includedBy : Option (List String) := none
  isRoot : Bool := true
  rootName : Option String := none
deriving DecidableEq, Repr

/-- An optional string as a JSON value (`x if x else None` shapes). -/
def optJStr : Option String → JValue
  | some s => JValue.jstr s
  | none => JValue.jnull

/-- Embeds `BundleState.to_dict` (lines 60–78): the seven always-present
keys, then `includes`/`included_by`/`root_name` only when truthy (a `None`
or empty list, or an empty `root_name`, is omitted). -/
def BundleState.to_dict (s : BundleState) : List (String × JValue) :=
  let base := [("uri", JValue.jstr s.uri), ("name", JValue.jstr s.name),
    ("version", optJStr s.version), ("loaded_at", optJStr s.loadedAt),
    ("checked_at", optJStr s.checkedAt), ("local_path", optJStr s.localPath),
    ("is_root", JValue.jbool s.isRoot)]
  let base :=
    match s.includes with
    | some (x :: xs) => base ++ [("includes", JValue.jstrlist (x :: xs))]
    | _ => base
  let base :=
    match s.includedBy with
    | some (x :: xs) => base ++ [("included_by", JValue.jstrlist (x :: xs))]
    | _ => base
  match s.rootName with
  | some r => if r ≠ "" then base ++ [("root_name", JValue.jstr r)] else base
  | none => base

/-- Reads an optional string field (`data.get(k)`). -/
def jGetStr (data : List (String × JValue)) (k : String) : Option String :=
  match lookupD k data with
  | some (JValue.jstr s) => some s
  | _ => none

/-- Embeds `BundleState.from_dict(name, data)` (lines 80–94).  The row
name is the surrounding dict key.  `data["uri"]` raising on a missing key
is embedded as `none`; `fromisoformat` guarded by truthiness maps an
empty or absent timestamp string to `None`; `is_root` defaults to
`True`. -/
def BundleState.from_dict (name : String) (data : List (String × JValue)) :
    Option BundleState :=
  match lookupD "uri" data with
  | some (JValue.jstr uri) =>
    some {
      uri := uri
      name := name
      version := jGetStr data "version"
      loadedAt :=
        match jGetStr data "loaded_at" with
        | some s => if s ≠ "" then some s else none
        | none => none
      checkedAt :=
        match jGetStr data "checked_at" with
        | some s => if s ≠ "" then some s else none
        | none => none
      localPath := jGetStr data "local_path"
      includes :=
        match lookupD "includes" data with
        | some (JValue.jstrlist l) => some l
        | _ => none
      includedBy :=
        match lookupD "included_by" data with
        | some (JValue.jstrlist l) => some l
        | _ => none
      isRoot :=
        match lookupD "is_root" data with
        | some (JValue.jbool b) => b
        | _ => true
      rootName := jGetStr data "root_name" }
  | _ => none

/-! ## Registry load pipeline (src/amplifier_foundation/registry.py,
`BundleRegistry._load_single` and `_compose_includes`)

The registry state tracked here is the `_loading` in-progress set
(embedded as a list whose membership is what matters) and the `_registry`
row dict.  The bundle fields that drive the pipeline's control flow are
`name`, `version` and `includes`; the loaded file's other sections, and
the `source_base_paths` bookkeeping of sub-bundle discovery, do not feed
back into the registry or the loading set and are not tracked in this
embedding.  Filesystem and network steps are oracles: source resolution,
bundle-file loading, the root-bundle upward walk, and the
candidate-existence probe of `_resolve_include_source`.  `fuel` bounds the
include recursion depth; running out of fuel is a distinguished error. -/

/-- The exceptions of the load pipeline: `BundleDependencyError`,
`BundleNotFoundError`, `BundleLoadError`, plus fuel exhaustion of the
embedding. -/
inductive LoadErr where
  | cycle : LoadErr
  | notFound : LoadErr
  | loadError : LoadErr
  | fuelOut : LoadErr
deriving DecidableEq, Repr

/-- An include directive: a bare string or a dict with a `bundle` key
(`_parse_include`, lines 567–575). -/
inductive IncludeDirective where
  | str : String → IncludeDirective
  | dict : List (String × Value) → IncludeDirective

/-- The fields of a loaded bundle that drive the load pipeline. -/
structure LoadedBundle where
  name : String
  version : String
  includes : List IncludeDirective
  sourceUri : String := ""

/-- Embeds `_parse_include` (lines 567–575): a string passes through, a
dict yields its truthy `bundle` value (bundle refs are strings per the
spec's schema). -/
def parseInclude : IncludeDirective → Option String
  | IncludeDirective.str s => some s
  | IncludeDirective.dict d =>
    match lookupD "bundle" d with
    | some (Value.vstr s) => if s ≠ "" then some s else none
    | _ => none

/-- Mutable registry state: the `_loading` in-progress set and the
`_registry` rows. -/
structure RegState where
  loading : List String
  registry : List (String × BundleState)

/-- Oracles for the load pipeline. -/
structure LoadEnv where
  /-- `SimpleSourceResolver.resolve`: URI to active path; `none` covers
  both a `None` result and a handler failure (`BundleNotFoundError`). -/
  resolveSource : String → Option String
  /-- `_load_from_path`: the parsed bundle, or a `BundleLoadError`. -/
  loadFromPath : String → Except Unit LoadedBundle
  /-- `_find_nearest_bundle_file` from the active path up to the stop
  boundary: the nearest bundle file, if any. -/
  findRoot : String → Option String
  /-- The candidate probe of `_resolve_include_source` (lines 536–558):
  namespace local path and relative path to a `file://` URI of the first
  existing candidate, if any. -/
  nsCandidate : String → String → Option String
  /-- `datetime.now()`, as an ISO string. -/
  now : String

/-- Embeds `_resolve_include_source` (lines 509–565): URIs pass through,
`namespace:path` resolves through the registry row's `local_path` and the
filesystem probe, plain names pass through for registry lookup. -/
def resolveIncludeSource (env : LoadEnv)
    (reg : List (String × BundleState)) (source : String) : Option String :=
  if decide (("://".data) <:+: source.data) ||
      startsWithL ("git+".data) source.data then
    some source
  else if source.data.contains (':') then
    let parts := splitFirst (':') source.data
    match lookupD (String.mk parts.1) reg with
    | some st =>
      match st.localPath with
      | some lp => env.nsCandidate lp (String.mk parts.2)
      | none => none
    | none => none
  else some source

/-- Embeds `_record_include_relationships` (lines 477–507): extend the
parent's `includes` and each child's `included_by` without duplicates
(`save()` touches only the disk). -/
def recordIncludeRelationships (reg : List (String × BundleState))
    (parentName : String) (childNames : List String) :
    List (String × BundleState) :=
  let reg :=
    match lookupD parentName reg with
    | some ps =>
      let cur := ps.includes.getD []
      let newIncludes := childNames.foldl
        (fun acc c => if c ∈ acc then acc else acc ++ [c]) cur
      setKeyD reg parentName ({ ps with includes := some newIncludes })
    | none => reg
  childNames.foldl
    (fun reg c =>
      match lookupD c reg with
      | some cs =>
        let cur := cs.includedBy.getD []
        let newIB := if parentName ∈ cur then cur else cur ++ [parentName]
        setKeyD reg c ({ cs with includedBy := some newIB })
      | none => reg)
    reg

/-- `Bundle.compose` restricted to the fields of `LoadedBundle`: later
non-empty name and version win, `includes` is the first bundle's
(`compose` copies `self.includes` and never merges the others'). -/
def composeMeta (b1 b2 : LoadedBundle) : LoadedBundle :=
  { name := if b2.name ≠ "" then b2.name else b1.name
    version := if b2.version ≠ "" then b2.version else b1.version
    includes := b1.includes
    sourceUri := b1.sourceUri }

/-- The name-or-URI resolution of `_load_single` (lines 257–265): a
registered name maps to its row URI, anything else is used as a URI. -/
def resolvedUriOf (st : RegState) (nameOrUri : String) : String :=
  match lookupD nameOrUri st.registry with
  | some row => row.uri
  | none => nameOrUri

mutual

/-- Embeds `_load_single` (registry.py lines 234–376): name/URI
resolution, the cycle check (raised before the `try`), the `try` body,
and the `finally` discard of the in-progress marker.  `auto_register` is
accepted and ignored exactly as in the source body. -/
def loadSingle (env : LoadEnv) (fuel : Nat) (autoRegister autoInclude : Bool)
    (nameOrUri : String) (st : RegState) :
    Except LoadErr LoadedBundle × RegState :=
  -- lines 257–265: registered name or direct URI
  let uri := resolvedUriOf st nameOrUri
  let registeredName :=
    if (lookupD nameOrUri st.registry).isSome then some nameOrUri else none
  -- lines 267–269: cycle detection, raised before the marker is added
  if uri ∈ st.loading then (Except.error LoadErr.cycle, st)
  else
    -- line 271: add the in-progress marker
    let st1 : RegState := { st with loading := uri :: st.loading }
    let body := loadBody env fuel autoInclude uri registeredName st1
    -- lines 375–376: finally: discard the marker
    (body.1, { body.2 with loading := body.2.loading.filter (fun u => u ≠ uri) })
termination_by (fuel, 3, 0)

/-- The `try` body of `_load_single` (lines 272–373). -/
def loadBody (env : LoadEnv) (fuel : Nat) (autoInclude : Bool) (uri : String)
    (registeredName : Option String) (st : RegState) :
    Except LoadErr LoadedBundle × RegState :=
  -- lines 273–278: source resolution; None raises BundleNotFoundError
  match env.resolveSource uri with
  | none => (Except.error LoadErr.notFound, st)
  | some localPath =>
    -- line 281: load the bundle from the active path
    match env.loadFromPath localPath with
    | Except.error _ => (Except.error LoadErr.loadError, st)
    | Except.ok bundle =>
      -- lines 283–325: sub-bundle discovery; a discovered root bundle is
      -- itself loaded, and that load's failure propagates
      let rootRes : Except LoadErr (Option LoadedBundle) :=
        match env.findRoot localPath with
        | some rootPath =>
          if rootPath ≠ localPath then
            match env.loadFromPath rootPath with
            | Except.error _ => Except.error LoadErr.loadError
            | Except.ok rb => Except.ok (some rb)
          else Except.ok none
        | none => Except.ok none
      match rootRes with
      | Except.error e => (Except.error e, st)
      | Except.ok rootBundle =>
        -- lines 327–335: root-bundle flags
        let flags : Bool × Option String :=
          match rootBundle with
          | some rb =>
            if rb.name ≠ "" ∧ rb.name ≠ bundle.name then (false, some rb.name)
            else (true, none)
          | none => (true, none)
        -- lines 337–354: register the name for namespace resolution
        let newRow : BundleState :=
          { uri := uri
            name := bundle.name
            version := some bundle.version
            loadedAt := some env.now
            localPath := some localPath
            isRoot := flags.1
            rootName := flags.2 }
        let st :=
          if bundle.name ≠ "" ∧ (lookupD bundle.name st.registry).isNone then
            { st with registry := setKeyD st.registry bundle.name newRow }
          else st
        -- lines 356–363: update the known row
        let updateName :=
          match registeredName with
          | some n => some n
          | none =>
            if (lookupD bundle.name st.registry).isSome then some bundle.name
            else none
        let st :=
          match updateName with
          | some n =>
            match lookupD n st.registry with
            | some row =>
              let row' : BundleState :=
                { row with
                  version := some bundle.version
                  loadedAt := some env.now
                  localPath := some localPath }
              { st with registry := setKeyD st.registry n row' }
            | none => st
          | none => st
        -- lines 365–367: load and compose includes
        let res :=
          if autoInclude && !bundle.includes.isEmpty then
            composeIncludes env fuel bundle st
          else (Except.ok bundle, st)
        -- lines 369–371: stamp _source_uri on the final bundle
        (res.1.map (fun b => { b with sourceUri := uri }), res.2)
termination_by (fuel, 2, 0)

/-- Embeds `_compose_includes` (lines 424–475). -/
def composeIncludes (env : LoadEnv) (fuel : Nat) (bundle : LoadedBundle)
    (st : RegState) : Except LoadErr LoadedBundle × RegState :=
  match includesLoop env fuel st bundle.includes with
  | (Except.error e, st') => (Except.error e, st')
  | (Except.ok included, st') =>
    if included.isEmpty then (Except.ok bundle, st')
    else
      let includedNames :=
        (included.filter (fun b => b.name ≠ "")).map (fun b => b.name)
      -- lines 466–468: record relationships (guarded on both being non-empty)
      let st' :=
        if bundle.name ≠ "" ∧ includedNames ≠ [] then
          { st' with registry :=
            recordIncludeRelationships st'.registry bundle.name includedNames }
        else st'
      -- lines 470–475: compose includes in order, current bundle on top
      match included with
      | [] => (Except.ok bundle, st')
      | first :: rest =>
        (Except.ok (composeMeta (rest.foldl composeMeta first) bundle), st')
termination_by (fuel, 1, 0)

/-- The include loop of `_compose_includes` (lines 437–461): unparseable
or unresolvable includes are skipped, a nested `BundleNotFoundError` is
caught and skipped, other errors propagate. -/
def includesLoop (env : LoadEnv) (fuel : Nat) (st : RegState) :
    List IncludeDirective → Except LoadErr (List LoadedBundle) × RegState
  | [] => (Except.ok [], st)
  | inc :: rest =>
    match parseInclude inc with
    | none => includesLoop env fuel st rest
    | some src =>
      match resolveIncludeSource env st.registry src with
      | none => includesLoop env fuel st rest
      | some resolvedSrc =>
        if h : fuel = 0 then (Except.error LoadErr.fuelOut, st)
        else
          match loadSingle env (fuel - 1) true true resolvedSrc st with
          | (Except.error LoadErr.notFound, st') => includesLoop env fuel st' rest
          | (Except.error e, st') => (Except.error e, st')
          | (Except.ok b, st') =>
            match includesLoop env fuel st' rest with
            | (Except.ok l, st'') => (Except.ok (b :: l), st'')
            | (Except.error e, st'') => (Except.error e, st'')
termination_by l => (fuel, 0, l.length)

end

/-! ## Validator (src/amplifier_foundation/validator.py) -/

/-- Embeds `ValidationResult` (validator.py lines 16–37). -/
structure ValidationResult where
  valid : Bool
  errors : List String
  warnings : List String
deriving DecidableEq, Repr

/-- Embeds `ValidationResult.add_error`. -/
def addError (r : ValidationResult) (m : String) : ValidationResult :=
  { r with errors := r.errors ++ [m], valid := false }

/-- Embeds `ValidationResult.add_warning`. -/
def addWarning (r : ValidationResult) (m : String) : ValidationResult :=
  { r with warnings := r.warnings ++ [m] }

/-- Python `type(x).__name__` on an embedded value. -/
def pyTypeName : Value → String
  | Value.vnull => "NoneType"
  | Value.vbool _ => "bool"
  | Value.vint _ => "int"
  | Value.vstr _ => "str"
  | Value.vlist _ => "list"
  | Value.vmap _ => "dict"

/-- A single-quote character, for faithful Python error messages. -/
def sq : String := String.mk [Char.ofNat 39]

/-- Embeds `_validate_required_fields` (lines 90–93). -/
def validateRequiredFields (b : BundleData) (r : ValidationResult) :
    ValidationResult :=
  if b.name = "" then addError r "Bundle must have a name" else r

/-- Embeds `_validate_module_entry` (lines 105–119). -/
def validateModuleEntry (listName : String) (i : Nat) (module : Value)
    (r : ValidationResult) : ValidationResult :=
  match module with
  | Value.vmap m =>
    let r :=
      if (lookupD "module" m).isNone then
        addError r (listName ++ "[" ++ toString i ++ "]: Missing required " ++
          sq ++ "module" ++ sq ++ " field")
      else r
    match lookupD "config" m with
    | some (Value.vmap _) => r
    | some cfg =>
      addError r (listName ++ "[" ++ toString i ++ "]: " ++ sq ++ "config" ++
        sq ++ " must be a dict, got " ++ pyTypeName cfg)
    | none => r
  | _ =>
    addError r (listName ++ "[" ++ toString i ++ "]: Must be a dict, got " ++
      pyTypeName module)

/-- The indexed entry loop of `_validate_module_lists`. -/
def validateEntriesFrom (listName : String) (i : Nat) (r : ValidationResult) :
    List Value → ValidationResult
  | [] => r
  | m :: rest =>
    validateEntriesFrom listName (i + 1) (validateModuleEntry listName i m r)
      rest

/-- Embeds `_validate_module_lists` (lines 95–103): providers, tools,
hooks in order. -/
def validateModuleLists (b : BundleData) (r : ValidationResult) :
    ValidationResult :=
  let r := validateEntriesFrom "providers" 0 r b.providers
  let r := validateEntriesFrom "tools" 0 r b.tools
  validateEntriesFrom "hooks" 0 r b.hooks

/-- Embeds `_validate_session` (lines 121–138): nothing for an empty
session; the `isinstance(session, dict)` guard is vacuous in the typed
embedding; `orchestrator` and `context` error unless absent, `None`, or a
string. -/
def validateSession (b : BundleData) (r : ValidationResult) :
    ValidationResult :=
  if b.session.isEmpty then r
  else
    let r :=
      match lookupD "orchestrator" b.session with
      | some (Value.vstr _) => r
      | some Value.vnull => r
      | some v =>
        addError r ("session.orchestrator: Must be a string, got " ++
          pyTypeName v)
      | none => r
    match lookupD "context" b.session with
    | some (Value.vstr _) => r
    | some Value.vnull => r
    | some v =>
      addError r ("session.context: Must be a string, got " ++ pyTypeName v)
    | none => r

/-- Embeds `_validate_resources` (lines 140–151): agent definitions must
be dicts; context paths produce warnings when the bundle has a base path
and the path does not exist. -/
def validateResources (pathExists : String → Bool) (b : BundleData)
    (r : ValidationResult) : ValidationResult :=
  let r := b.agents.foldl
    (fun r kv =>
      match kv.2 with
      | Value.vmap _ => r
      | v => addError r ("agents." ++ kv.1 ++ ": Must be a dict, got " ++
          pyTypeName v))
    r
  match b.basePath with
  | some _ =>
    b.context.foldl
      (fun r kv =>
        if pathExists kv.2 then r
        else addWarning r ("context." ++ kv.1 ++ ": Path does not exist: " ++
          kv.2))
      r
  | none => r

/-- Embeds `BundleValidator.validate` (lines 52–75). -/
def validate (pathExists : String → Bool) (b : BundleData) :
    ValidationResult :=
  let r : ValidationResult := ⟨true, [], []⟩
  let r := validateRequiredFields b r
  let r := validateModuleLists b r
  let r := validateSession b r
  validateResources pathExists b r

/-! ## Concrete instances used by the claims -/

/-- The base bundle of spec scenario S1. -/
def c1Base : BundleData :=
  { name := "base"
    providers := [Value.vmap [("module", Value.vstr "p"),
      ("config", Value.vmap [("x", Value.vint 1), ("y", Value.vint 2)])]] }

/-- The overriding bundle of spec scenario S1. -/
def c1Over : BundleData :=
  { name := "over"
    providers := [Value.vmap [("module", Value.vstr "p"),
      ("config", Value.vmap [("y", Value.vint 3), ("z", Value.vint 4)])]] }

/-- A registry row with an empty (not `None`) `includes` list. -/
def c8EmptyIncludesRow : BundleState :=
  { uri := "u", name := "n", includes := some [] }

/-- A representative registry row for the persistence witness. -/
def c8WitnessRow : BundleState :=
  { uri := "git+https://example.com/r"
    name := "foundation"
    version := some "1.0.0"
    loadedAt := some "2024-01-01T00:00:00"
    localPath := some "/home/user/.amplifier/cache/r"
    includes := some ["tools"]
    includedBy := some ["app"]
    isRoot := true
    rootName := none }

/-- A bundle whose `session.orchestrator` is a mapping with `module` and
`source`, the shape used by the repository's own examples and by
`Bundle.prepare`. -/
def c9Bundle : BundleData :=
  { name := "b"
    session := [("orchestrator", Value.vmap [("module", Value.vstr "loop-basic"),
      ("source", Value.vstr "git+https://example.com/loop")])] }

/-- The mention-parser input of spec scenario S4. -/
def s4Text : Chars :=
  "Check @outside.md.\n```\n@inside.md\n```\nAnd `@inline.md` or @after.md".data

/-- A git URI with both a legacy `@ref/sub` subpath and a `#subdirectory=`
fragment whose value is empty. -/
def c3Uri : Chars := "git+https://github.com/org/repo@main/sub#subdirectory=".data

/-- A mention-loader environment over the embedded base resolver: only
`/base/a` exists, and every read raises a (caught) `OSError`. -/
def c4Env : MentionEnv :=
  { resolve := baseResolve [] "/base" (fun p => p == "/base/a")
    read := fun _ => Except.error ReadErr.osErr }

/-- Loader input with one resolvable and one unresolvable mention. -/
def c4Text : Chars := "see @a and @b".data

/-- A mention-loader environment in which `/base/logo.png` exists but
holds bytes that are not valid UTF-8, so its read raises the uncaught
`UnicodeDecodeError`. -/
def c4BinEnv : MentionEnv :=
  { resolve := baseResolve [] "/base" (fun p => p == "/base/logo.png")
    read := fun _ => Except.error ReadErr.decodeErr }

/-- Loader input mentioning the binary file. -/
def c4BinText : Chars := "see @logo.png".data

/-- A load-pipeline environment whose oracles all fail (sufficient for the
cycle-detection witness). -/
def c2Env : LoadEnv :=
  { resolveSource := fun _ => none
    loadFromPath := fun _ => Except.error ()
    findRoot := fun _ => none
    nsCandidate := fun _ _ => none
    now := "2024-01-01T00:00:00" }

/-- Whether a spec dict has pairwise-distinct keys (Python dicts cannot
carry duplicates). -/
def specKeysNodup : Value → Bool
  | Value.vmap e => decide ((e.map Prod.fst).Nodup)
  | _ => true

/-- The module keys contributed by `l` that are not already in `seen`, in
first-seen order. -/
def newModules (seen : List (Option String)) : List Value → List (Option String)
  | [] => []
  | x :: rest =>
    if moduleOf x ∈ seen then newModules seen rest
    else moduleOf x :: newModules (seen ++ [moduleOf x]) rest

/-! ## Theorems -/

/-- C7: Adding the same content to a `ContentDeduplicator` twice, under
any two paths, is idempotent: on a fresh deduplicator the second
`add_file` returns `False` and `get_unique_files()` returns exactly the
one `ContextFile` recorded at the first add, whose `content_hash` is the
SHA-256 hex of the content; in general `add_file` only ever appends, so
the list is in discovery order; and the hash function agrees with the
lowercase hex SHA-256 of the UTF-8 bytes on a concrete vector. -/
theorem c7_dedup_idempotent :
    (∀ p1 p2 c : String,
      (addFile DedupState.init p1 c).1 = true ∧
      (addFile (addFile DedupState.init p1 c).2 p2 c).1 = false ∧
      getUniqueFiles (addFile (addFile DedupState.init p1 c).2 p2 c).2 =
        [⟨p1, c, sha256hexStr c⟩]) ∧
    (∀ (st : DedupState) (p c : String),
      (addFile st p c).2.files = st.files ∨
      (addFile st p c).2.files = st.files ++ [⟨p, c, sha256hexStr c⟩]) ∧
    sha256hexStr "hello" =
      "2cf24dba5fb0a30e26e83b2ac5b9e29e1b161e5c1fa7425e73043362938b9824" := by
  refine ⟨?_, ?_, by decide⟩
  · intro p1 p2 c
    simp [addFile, DedupState.init, getUniqueFiles]
  · intro st p c
    by_cases h : sha256hexStr c ∈ st.seenHashes <;> simp [addFile, h]

/-- C9: `BundleValidator.validate` rejects a `session.orchestrator` that
is a mapping with `module` and `source`: evaluating the embedded
validator at such a bundle produces exactly the string error and an
invalid result, contradicting the claim (and the schema used by
`Bundle.prepare` and the repository's examples). -/
theorem c9_validator_errors_on_mapping_orchestrator :
    (validate (fun _ => true) c9Bundle).errors =
      ["session.orchestrator: Must be a string, got dict"] ∧
    (validate (fun _ => true) c9Bundle).valid = false :=
  ⟨rfl, rfl⟩

/-- C8 counterexample: a registry row whose `includes` is the empty list
(not `None`) does not round-trip: `to_dict` omits the falsy list and
`from_dict` restores it as `None`. -/
theorem c8_roundtrip_counterexample :
    (BundleState.from_dict c8EmptyIncludesRow.name
        (BundleState.to_dict c8EmptyIncludesRow)).map BundleState.includes =
      some none ∧
    c8EmptyIncludesRow.includes = some [] ∧
    BundleState.from_dict c8EmptyIncludesRow.name
        (BundleState.to_dict c8EmptyIncludesRow) ≠ some c8EmptyIncludesRow := by
  refine ⟨by decide, by decide, by decide⟩

/-- C8 (amended): for every registry row keyed by its `name` whose
`includes` and `included_by` are not empty lists, serializing with
`BundleState.to_dict` and deserializing with `BundleState.from_dict`
yields a row equal to the original on `uri`, `name`, `version`,
`is_root`, `includes` and `included_by`. -/
theorem c8_roundtrip_amended (s : BundleState) (h1 : s.includes ≠ some [])
    (h2 : s.includedBy ≠ some []) :
    (BundleState.from_dict s.name (BundleState.to_dict s)).map
        (fun r => (r.uri, r.name, r.version, r.isRoot, r.includes,
          r.includedBy)) =
      some (s.uri, s.name, s.version, s.isRoot, s.includes, s.includedBy) := by
  obtain ⟨uri, name, version, loadedAt, checkedAt, localPath, includes,
    includedBy, isRoot, rootName⟩ := s
  simp only at h1 h2
  rcases includes with _ | ⟨_ | ⟨a, as⟩⟩
  case some.nil => exact absurd rfl h1
  all_goals rcases includedBy with _ | ⟨_ | ⟨b, bs⟩⟩
  case some.nil => exact absurd rfl h2
  case some.cons.some.nil => exact absurd rfl h2
  all_goals rcases version with _ | v
  all_goals rcases rootName with _ | r
  all_goals
    simp [BundleState.to_dict, BundleState.from_dict, jGetStr, lookupD,
      optJStr]
  all_goals by_cases hr : r = "" <;>
    simp [hr, BundleState.to_dict, BundleState.from_dict, jGetStr, lookupD,
      optJStr]

/-- C8 witness: the amended round-trip at a representative concrete
row. -/
theorem c8_roundtrip_amended_witness :
    c8WitnessRow.includes ≠ some [] ∧ c8WitnessRow.includedBy ≠ some [] ∧
    (BundleState.from_dict c8WitnessRow.name
        (BundleState.to_dict c8WitnessRow)).map
        (fun r => (r.uri, r.name, r.version, r.isRoot, r.includes,
          r.includedBy)) =
      some (c8WitnessRow.uri, c8WitnessRow.name, c8WitnessRow.version,
        c8WitnessRow.isRoot, c8WitnessRow.includes,
        c8WitnessRow.includedBy) :=
  ⟨by decide, by decide,
    c8_roundtrip_amended c8WitnessRow (by decide) (by decide)⟩

/-! ### String-scanning lemmas -/

theorem startsWithL_append_self (p t : Chars) : startsWithL p (p ++ t) = true := by
  induction p with
  | nil => simp [startsWithL, List.isPrefixOf]
  | cons c cs ih =>
    simp only [startsWithL, List.cons_append, List.isPrefixOf] at ih ⊢
    simp [ih]

theorem contains_append_cons (a b : Chars) (c : Char) :
    (a ++ c :: b).contains c = true := by
  induction a with
  | nil => simp
  | cons x xs ih => simp [ih]

theorem contains_eq_false_of_not_mem (l : Chars) (c : Char) (h : c ∉ l) :
    l.contains c = false := by
  simp [List.contains]
  intro hmem
  exact absurd hmem h

theorem takeWhile_until (sep : Char) (a b : Chars) (h : sep ∉ a) :
    (a ++ sep :: b).takeWhile (fun c => !decide (c = sep)) = a := by
  induction a with
  | nil => simp
  | cons x xs ih =>
    have hx : x ≠ sep := fun he => h (he ▸ List.mem_cons_self x xs)
    simp [List.takeWhile_cons, hx,
      ih (fun hm => h (List.mem_cons_of_mem x hm))]

theorem dropWhile_until (sep : Char) (a b : Chars) (h : sep ∉ a) :
    (a ++ sep :: b).dropWhile (fun c => !decide (c = sep)) = sep :: b := by
  induction a with
  | nil => simp
  | cons x xs ih =>
    have hx : x ≠ sep := fun he => h (he ▸ List.mem_cons_self x xs)
    simp [List.dropWhile_cons, hx,
      ih (fun hm => h (List.mem_cons_of_mem x hm))]

theorem splitFirst_append_cons (sep : Char) (a b : Chars) (h : sep ∉ a) :
    splitFirst sep (a ++ sep :: b) = (a, b) := by
  unfold splitFirst
  simp only [ne_eq, decide_not]
  rw [takeWhile_until sep a b h, dropWhile_until sep a b h]
  simp

/-- Subpath behavior of `_parse_vcs_uri` in the presence of a fragment:
the fragment part is split off first, and a non-empty `subdirectory=`
value wins over whatever the legacy `@ref/subpath` extraction yields,
while an empty value falls back to it. -/
theorem parseVcsUri_fragment (pfx body frag : Chars) (hb : ('#') ∉ body) :
    (parseVcsUri (pfx ++ (body ++ '#' :: frag)) pfx).subpath =
      (if extractSubdirectoryFromFragment frag ≠ [] then
        extractSubdirectoryFromFragment frag
      else (parseVcsUri (pfx ++ body) pfx).subpath) := by
  have hdrop1 : (pfx ++ (body ++ '#' :: frag)).drop pfx.length =
      body ++ '#' :: frag := List.drop_left pfx _
  have hdrop2 : (pfx ++ body).drop pfx.length = body := List.drop_left pfx body
  simp only [parseVcsUri, hdrop1, hdrop2, contains_append_cons,
    contains_eq_false_of_not_mem body ('#') hb,
    splitFirst_append_cons ('#') body frag hb, if_true, if_false,
    Bool.false_eq_true, ite_false, ite_true]
  by_cases hx : extractSubdirectoryFromFragment frag = [] <;> simp [hx]

/-- C3 counterexample: on a git URI carrying both a legacy `@ref/sub`
subpath and a `#subdirectory=` fragment whose extracted value is empty,
the parsed `subpath` is the legacy `sub`, not the fragment value. -/
theorem c3_fragment_counterexample :
    (parse_uri c3Uri).subpath = "sub".data ∧
    extractSubdirectoryFromFragment ("subdirectory=".data) = [] ∧
    (parse_uri c3Uri).subpath ≠
      extractSubdirectoryFromFragment ("subdirectory=".data) := by
  refine ⟨by decide, by decide, by decide⟩

/-- C3 (amended): for every `git+`/`zip+` URI with a `#subdirectory=`
fragment, a non-empty extracted subdirectory value becomes the parsed
`subpath`, overriding any legacy `@ref/sub` subpath; when the extracted
value is empty the legacy subpath of the fragment-free URI is used. -/
theorem c3_fragment_precedence_amended (useGit : Bool) (body frag : Chars)
    (hb : ('#') ∉ body) :
    (extractSubdirectoryFromFragment frag ≠ [] →
      (parse_uri ((if useGit then "git+".data else "zip+".data) ++
          (body ++ '#' :: frag))).subpath =
        extractSubdirectoryFromFragment frag) ∧
    (extractSubdirectoryFromFragment frag = [] →
      (parse_uri ((if useGit then "git+".data else "zip+".data) ++
          (body ++ '#' :: frag))).subpath =
        (parse_uri ((if useGit then "git+".data else "zip+".data) ++
          body)).subpath) := by
  cases useGit
  · -- zip+
    have e : "zip+".data = 'z' :: 'i' :: 'p' :: '+' :: [] := rfl
    have hg1 : startsWithL ("git+".data) ("zip+".data ++ (body ++ '#' :: frag)) = false := by
      simp [e, startsWithL, List.isPrefixOf]
    have hg2 : startsWithL ("git+".data) ("zip+".data ++ body) = false := by
      simp [e, startsWithL, List.isPrefixOf]
    have frag_eq := parseVcsUri_fragment ("zip+".data) body frag hb
    simp only [if_false, Bool.false_eq_true, parse_uri, hg1, hg2,
      startsWithL_append_self, if_true, ite_true, ite_false] at frag_eq ⊢
    constructor
    · intro hx
      rw [frag_eq]
      simp [hx]
    · intro hx
      rw [frag_eq]
      simp [hx]
  · -- git+
    have frag_eq := parseVcsUri_fragment ("git+".data) body frag hb
    simp only [if_true, parse_uri, startsWithL_append_self, ite_true] at frag_eq ⊢
    constructor
    · intro hx
      rw [frag_eq]
      simp [hx]
    · intro hx
      rw [frag_eq]
      simp [hx]

/-- C3 witness: the amended precedence at the concrete URI
`git+https://github.com/org/repo@main/sub#subdirectory=x`. -/
theorem c3_fragment_precedence_witness :
    ('#') ∉ ("https://github.com/org/repo@main/sub".data) ∧
    extractSubdirectoryFromFragment ("subdirectory=x".data) ≠ [] ∧
    (parse_uri ("git+".data ++ ("https://github.com/org/repo@main/sub".data ++
        '#' :: "subdirectory=x".data))).subpath =
      extractSubdirectoryFromFragment ("subdirectory=x".data) :=
  ⟨by decide, by decide,
    (c3_fragment_precedence_amended true
      ("https://github.com/org/repo@main/sub".data)
      ("subdirectory=x".data) (by decide)).1 (by decide)⟩

theorem takeWhile_append_all (p : Char → Bool) (a b : Chars)
    (h : ∀ c ∈ a, p c = true) : (a ++ b).takeWhile p = a ++ b.takeWhile p := by
  induction a with
  | nil => simp
  | cons x xs ih =>
    simp [List.takeWhile_cons, h x (List.mem_cons_self x xs),
      ih (fun c hc => h c (List.mem_cons_of_mem x hc))]

/-- Scheme extraction of the embedded `urlparse` on a URL whose scheme
part is valid. -/
theorem urlparse_scheme_of_valid (s t : Chars) (hs : (':') ∉ s)
    (hvalid : validScheme s = true) :
    (urlparseNoFrag (s ++ ':' :: t)).scheme = s.map Char.toLower := by
  unfold urlparseNoFrag
  simp only [splitFirst, contains_append_cons, if_true, ne_eq, decide_not,
    takeWhile_until (':') s t hs, dropWhile_until (':') s t hs, hvalid,
    ite_true]

/-- Every scheme produced by `parse_uri` has one of six shapes:
`git+…`, `zip+…`, `file`, `http`, `https`, or empty. -/
theorem parse_uri_scheme_cases (uri : Chars) :
    (∃ x, (parse_uri uri).scheme = 'g' :: 'i' :: 't' :: '+' :: x) ∨
    (∃ x, (parse_uri uri).scheme = 'z' :: 'i' :: 'p' :: '+' :: x) ∨
    (parse_uri uri).scheme = "file".data ∨
    (parse_uri uri).scheme = "http".data ∨
    (parse_uri uri).scheme = "https".data ∨
    (parse_uri uri).scheme = [] := by
  have keyHttp : ∀ t2 : Chars,
      (urlparseNoFrag ("http".data ++ ':' :: t2)).scheme = "http".data := by
    intro t2
    rw [urlparse_scheme_of_valid _ _ (by decide) (by decide)]
    decide
  have keyHttps : ∀ t2 : Chars,
      (urlparseNoFrag ("https".data ++ ':' :: t2)).scheme = "https".data := by
    intro t2
    rw [urlparse_scheme_of_valid _ _ (by decide) (by decide)]
    decide
  unfold parse_uri
  split_ifs with h1 h2 h3 h4 h5 h6 hc h8
  · exact Or.inl ⟨_, rfl⟩
  · exact Or.inr (Or.inl ⟨_, rfl⟩)
  · exact Or.inr (Or.inr (Or.inl rfl))
  · exact Or.inr (Or.inr (Or.inl rfl))
  · exact Or.inr (Or.inr (Or.inl rfl))
  · -- http(s) branch, with a fragment present
    rcases Bool.or_eq_true_iff.mp h6 with hH | hH
    · refine Or.inr (Or.inr (Or.inr (Or.inl ?_)))
      obtain ⟨t, ht⟩ := List.isPrefixOf_iff_prefix.mp hH
      subst ht
      have hsp : (splitFirst ('#') ("http://".data ++ t)).1 =
          "http".data ++ ':' ::
            ('/' :: '/' :: (t.takeWhile (fun c => !decide (c = '#')))) := by
        simp only [splitFirst, ne_eq, decide_not]
        rw [show ("http://".data ++ t) =
            (['h', 't', 't', 'p', ':', '/', '/'] ++ t) from rfl,
          takeWhile_append_all _ _ _ (by decide)]
        rfl
      show (urlparseNoFrag (splitFirst ('#') ("http://".data ++ t)).1).scheme =
        "http".data
      rw [hsp, keyHttp]
    · refine Or.inr (Or.inr (Or.inr (Or.inr (Or.inl ?_))))
      obtain ⟨t, ht⟩ := List.isPrefixOf_iff_prefix.mp hH
      subst ht
      have hsp : (splitFirst ('#') ("https://".data ++ t)).1 =
          "https".data ++ ':' ::
            ('/' :: '/' :: (t.takeWhile (fun c => !decide (c = '#')))) := by
        simp only [splitFirst, ne_eq, decide_not]
        rw [show ("https://".data ++ t) =
            (['h', 't', 't', 'p', 's', ':', '/', '/'] ++ t) from rfl,
          takeWhile_append_all _ _ _ (by decide)]
        rfl
      show (urlparseNoFrag (splitFirst ('#') ("https://".data ++ t)).1).scheme =
        "https".data
      rw [hsp, keyHttps]
  · -- http(s) branch, no fragment
    rcases Bool.or_eq_true_iff.mp h6 with hH | hH
    · refine Or.inr (Or.inr (Or.inr (Or.inl ?_)))
      obtain ⟨t, ht⟩ := List.isPrefixOf_iff_prefix.mp hH
      subst ht
      exact keyHttp ('/' :: '/' :: t)
    · refine Or.inr (Or.inr (Or.inr (Or.inr (Or.inl ?_))))
      obtain ⟨t, ht⟩ := List.isPrefixOf_iff_prefix.mp hH
      subst ht
      exact keyHttps ('/' :: '/' :: t)
  · exact Or.inr (Or.inr (Or.inr (Or.inr (Or.inr rfl))))
  · exact Or.inr (Or.inr (Or.inr (Or.inr (Or.inr rfl))))

/-- C6: for every URI string, the derived predicates of the `ParsedURI`
returned by `parse_uri` are mutually exclusive (including `is_http`), and
`is_git` holds iff the scheme starts with `git+`, `is_zip` iff it starts
with `zip+`, `is_file` iff the scheme is `file` or is empty with a slash
in the path, and `is_package` iff the scheme is empty and the path has no
slash. -/
theorem c6_uri_predicate_laws (uri : Chars) :
    ((parse_uri uri).is_git = true ↔
      startsWithL ("git+".data) (parse_uri uri).scheme = true) ∧
    ((parse_uri uri).is_zip = true ↔
      startsWithL ("zip+".data) (parse_uri uri).scheme = true) ∧
    ((parse_uri uri).is_file = true ↔
      ((parse_uri uri).scheme = "file".data ∨
        ((parse_uri uri).scheme = [] ∧
          (parse_uri uri).path.contains ('/') = true))) ∧
    ((parse_uri uri).is_package = true ↔
      ((parse_uri uri).scheme = [] ∧
        ¬ (parse_uri uri).path.contains ('/') = true)) ∧
    ¬((parse_uri uri).is_git = true ∧ (parse_uri uri).is_zip = true) ∧
    ¬((parse_uri uri).is_git = true ∧ (parse_uri uri).is_file = true) ∧
    ¬((parse_uri uri).is_git = true ∧ (parse_uri uri).is_http = true) ∧
    ¬((parse_uri uri).is_git = true ∧ (parse_uri uri).is_package = true) ∧
    ¬((parse_uri uri).is_zip = true ∧ (parse_uri uri).is_file = true) ∧
    ¬((parse_uri uri).is_zip = true ∧ (parse_uri uri).is_http = true) ∧
    ¬((parse_uri uri).is_zip = true ∧ (parse_uri uri).is_package = true) ∧
    ¬((parse_uri uri).is_file = true ∧ (parse_uri uri).is_http = true) ∧
    ¬((parse_uri uri).is_file = true ∧ (parse_uri uri).is_package = true) ∧
    ¬((parse_uri uri).is_http = true ∧ (parse_uri uri).is_package = true) := by
  rcases parse_uri_scheme_cases uri with ⟨x, hx⟩ | ⟨x, hx⟩ | hx | hx | hx | hx <;>
    rcases hp : parse_uri uri with ⟨sc, h, p, r, s⟩ <;>
    rw [hp] at hx <;> simp only [] at hx <;> subst hx <;>
    simp [ParsedURI.is_git, ParsedURI.is_zip, ParsedURI.is_file,
      ParsedURI.is_http, ParsedURI.is_package, startsWithL, List.isPrefixOf]

/-! ### Module-list merge lemmas -/

theorem lookupV_setKey_self (m : List (String × Value)) (k : String)
    (v : Value) : lookupV k (setKey m k v) = some v := by
  induction m with
  | nil => simp [setKey, lookupV]
  | cons kv rest ih =>
    by_cases h : kv.1 = k
    · simp [setKey, h, lookupV]
    · obtain ⟨k', v'⟩ := kv
      simp only at h
      simp [setKey, h, lookupV, ih]

theorem lookupV_setKey_ne (m : List (String × Value)) (k k' : String)
    (v : Value) (h : k' ≠ k) : lookupV k (setKey m k' v) = lookupV k m := by
  induction m with
  | nil => simp [setKey, lookupV, h]
  | cons kv rest ih =>
    obtain ⟨k0, v0⟩ := kv
    by_cases h0 : k0 = k'
    · subst h0
      simp [setKey, lookupV, h]
    · simp [setKey, h0, lookupV, ih]

theorem lookupV_module_mergeSpecStep (acc : List (String × Value))
    (kv : String × Value) (h : kv.1 ≠ "module") :
    lookupV "module" (mergeSpecStep acc kv) = lookupV "module" acc := by
  obtain ⟨k1, v2⟩ := kv
  simp only at h
  have hcm : ("config" : String) ≠ "module" := by decide
  unfold mergeSpecStep
  by_cases hc : k1 = "config"
  · simp only [hc, ite_true, if_true]
    rcases h1 : lookupV "config" acc with _ | v1
    · cases v2 <;> exact lookupV_setKey_ne acc "module" "config" _ hcm
    · cases v1 <;> cases v2 <;>
        exact lookupV_setKey_ne acc "module" "config" _ hcm
  · rw [if_neg hc]
    exact lookupV_setKey_ne acc "module" k1 v2 h

theorem lookupV_module_fold_free (e2 : List (String × Value))
    (acc : List (String × Value)) (h : ∀ kv ∈ e2, kv.1 ≠ "module") :
    lookupV "module" (e2.foldl mergeSpecStep acc) = lookupV "module" acc := by
  induction e2 generalizing acc with
  | nil => rfl
  | cons kv rest ih =>
    rw [List.foldl_cons, ih _ (fun x hx => h x (List.mem_cons_of_mem kv hx)),
      lookupV_module_mergeSpecStep acc kv (h kv (List.mem_cons_self kv rest))]

theorem lookupV_module_fold_present (e2 : List (String × Value))
    (acc : List (String × Value)) (v : Value)
    (hnd : (e2.map Prod.fst).Nodup) (h : lookupV "module" e2 = some v) :
    lookupV "module" (e2.foldl mergeSpecStep acc) = some v := by
  induction e2 generalizing acc with
  | nil => simp [lookupV] at h
  | cons kv rest ih =>
    obtain ⟨k0, v0⟩ := kv
    by_cases h0 : k0 = "module"
    · subst h0
      simp only [lookupV, if_true, ite_true] at h
      obtain rfl : v0 = v := by simpa using h
      rw [List.foldl_cons]
      have hfree : ∀ kv2 ∈ rest, kv2.1 ≠ "module" := by
        intro kv2 hk2 he
        simp only [List.map_cons, List.nodup_cons] at hnd
        exact hnd.1 (he ▸ List.mem_map_of_mem Prod.fst hk2)
      rw [lookupV_module_fold_free rest _ hfree]
      unfold mergeSpecStep
      rw [if_neg (by simp : ¬("module", v0).1 = "config")]
      exact lookupV_setKey_self acc "module" v0
    · simp only [lookupV, h0, if_false, Bool.false_eq_true, ite_false] at h
      simp only [List.map_cons, List.nodup_cons] at hnd
      rw [List.foldl_cons]
      exact ih _ hnd.2 h

theorem moduleOf_vmap_entries (x : Value) (m : String)
    (hx : moduleOf x = some m) :
    ∃ e, x = Value.vmap e ∧ lookupV "module" e = some (Value.vstr m) := by
  cases x with
  | vmap e =>
    simp only [moduleOf] at hx
    rcases hv : lookupV "module" e with _ | v <;> rw [hv] at hx
    · cases hx
    · cases v <;> simp at hx
      exact ⟨e, rfl, by rw [hv, hx]⟩
  | vnull => simp [moduleOf] at hx
  | vbool b => simp [moduleOf] at hx
  | vint n => simp [moduleOf] at hx
  | vstr s => simp [moduleOf] at hx
  | vlist l => simp [moduleOf] at hx

theorem moduleOf_mergeSpec_eq (s x : Value) (m m' : String)
    (hs : moduleOf s = some m') (hx : moduleOf x = some m)
    (hnd : specKeysNodup x = true) : moduleOf (mergeSpec s x) = some m := by
  obtain ⟨e1, rfl, h1⟩ := moduleOf_vmap_entries s m' hs
  obtain ⟨e2, rfl, h2⟩ := moduleOf_vmap_entries x m hx
  simp only [specKeysNodup, decide_eq_true_eq] at hnd
  simp only [mergeSpec, moduleOf]
  rw [lookupV_module_fold_present e2 e1 (Value.vstr m) hnd h2]

theorem map_moduleOf_replaceFirstSpec (l : List Value) (m : String)
    (x : Value) (hx : moduleOf x = some m) (hnd : specKeysNodup x = true) :
    (replaceFirstSpec m x l).map moduleOf = l.map moduleOf := by
  induction l with
  | nil => rfl
  | cons s rest ih =>
    by_cases hs : moduleOf s = some m
    · simp [replaceFirstSpec, hs, moduleOf_mergeSpec_eq s x m m hs hx hnd]
    · simp [replaceFirstSpec, hs, ih]

theorem map_moduleOf_mergeModuleStep (acc : List Value) (x : Value)
    (m : String) (hm : moduleOf x = some m) (hnd : specKeysNodup x = true) :
    (mergeModuleStep acc x).map moduleOf =
      (if moduleOf x ∈ acc.map moduleOf then acc.map moduleOf
       else acc.map moduleOf ++ [moduleOf x]) := by
  unfold mergeModuleStep
  rw [hm]
  show (if (acc.any fun s => moduleOf s == some m) = true then
      replaceFirstSpec m x acc else acc ++ [x]).map moduleOf = _
  by_cases hmem : some m ∈ acc.map moduleOf
  · have hany : (acc.any fun s => moduleOf s == some m) = true := by
      rw [List.any_eq_true]
      obtain ⟨a, ha, hma⟩ := List.mem_map.mp hmem
      exact ⟨a, ha, by simp [hma]⟩
    rw [if_pos hany, if_pos hmem]
    exact map_moduleOf_replaceFirstSpec acc m x hm hnd
  · have hany : (acc.any fun s => moduleOf s == some m) = false := by
      rw [← Bool.not_eq_true, List.any_eq_true]
      rintro ⟨a, ha, hma⟩
      exact hmem ((eq_of_beq hma) ▸ List.mem_map_of_mem moduleOf ha)
    rw [if_neg (by simp [hany]), if_neg hmem]
    simp [hm]

theorem merge_module_lists_order (l1 l2 : List Value)
    (h : ∀ x ∈ l2, (moduleOf x).isSome = true ∧ specKeysNodup x = true) :
    (merge_module_lists l1 l2).map moduleOf =
      l1.map moduleOf ++ newModules (l1.map moduleOf) l2 := by
  unfold merge_module_lists
  induction l2 generalizing l1 with
  | nil => simp [newModules]
  | cons x rest ih =>
    obtain ⟨hsome, hnd⟩ := h x (List.mem_cons_self x rest)
    obtain ⟨m, hm⟩ := Option.isSome_iff_exists.mp hsome
    rw [List.foldl_cons,
      ih (mergeModuleStep l1 x) (fun y hy => h y (List.mem_cons_of_mem x hy)),
      map_moduleOf_mergeModuleStep l1 x m hm hnd]
    by_cases hmem : moduleOf x ∈ l1.map moduleOf
    · simp [hmem, newModules]
    · simp only [hmem, if_false, Bool.false_eq_true, ite_false, newModules,
        List.append_assoc, List.singleton_append]

/-- C1: composing two bundles merges the provider/tool/hook lists by
`module` key in first-seen order with `config` maps merged recursively:
on spec scenario S1, `base.compose(over).providers` is the single spec
`{module: p, config: {x:1, y:3, z:4}}` and the result's name is `over`;
in general, for module lists whose specs carry (unique-keyed) `module`
entries, the merged list's modules are those of `L1` followed by the
modules of `L2` not in `L1`, in first-seen order. -/
theorem c1_compose_merges_module_lists :
    (composeBundles c1Base [c1Over]).providers =
      [Value.vmap [("module", Value.vstr "p"),
        ("config", Value.vmap [("x", Value.vint 1), ("y", Value.vint 3),
          ("z", Value.vint 4)])]] ∧
    (composeBundles c1Base [c1Over]).name = "over" ∧
    (∀ l1 l2 : List Value,
      (∀ x ∈ l2, (moduleOf x).isSome = true ∧ specKeysNodup x = true) →
      (merge_module_lists l1 l2).map moduleOf =
        l1.map moduleOf ++ newModules (l1.map moduleOf) l2) :=
  ⟨rfl, rfl, merge_module_lists_order⟩

/-- C1 witness: the general merge-order law applied at the S1 provider
lists. -/
theorem c1_compose_merges_module_lists_witness :
    (∀ x ∈ c1Over.providers, (moduleOf x).isSome = true ∧
      specKeysNodup x = true) ∧
    (merge_module_lists c1Base.providers c1Over.providers).map moduleOf =
      c1Base.providers.map moduleOf ++
        newModules (c1Base.providers.map moduleOf) c1Over.providers :=
  ⟨by decide, c1_compose_merges_module_lists.2.2 _ _ (by decide)⟩


/-! ### C4 : silent misses, but an uncaught decode error escapes -/

theorem resolveMention_miss (env : MentionEnv) (fuel : Nat) (d : DedupState)
    (m : String) (h : env.resolve m = none) :
    resolveMention env fuel d m =
      Except.ok (⟨m, none, none, none⟩, d) := by
  unfold resolveMention
  rw [h]

theorem resolveMention_osErr (env : MentionEnv) (fuel : Nat)
    (d : DedupState) (m : String) (p : String)
    (h : env.resolve m = some p)
    (hr : env.read p = Except.error ReadErr.osErr) :
    resolveMention env fuel d m =
      Except.ok (⟨m, some p, none, none⟩, d) := by
  unfold resolveMention
  rw [h]
  dsimp only
  rw [hr]

theorem resolveMention_decodeErr (env : MentionEnv) (fuel : Nat)
    (d : DedupState) (m : String) (p : String)
    (h : env.resolve m = some p)
    (hr : env.read p = Except.error ReadErr.decodeErr) :
    resolveMention env fuel d m = Except.error () := by
  unfold resolveMention
  rw [h]
  dsimp only
  rw [hr]

theorem mentions_ok_of_no_decode (env : MentionEnv)
    (hnd : ∀ p, env.read p ≠ Except.error ReadErr.decodeErr) (fuel : Nat) :
    (∀ d m, ∃ rd, resolveMention env fuel d m = Except.ok rd) ∧
    (∀ (l : List Chars) (d : DedupState), ∃ d2,
      nestedMentions env fuel d l = Except.ok d2) := by
  induction fuel with
  | zero =>
    have hR : ∀ d m, ∃ rd, resolveMention env 0 d m = Except.ok rd := by
      intro d m
      unfold resolveMention
      cases hres : env.resolve m with
      | none => exact ⟨_, rfl⟩
      | some p =>
        dsimp only
        cases hrd : env.read p with
        | error e =>
          cases e with
          | osErr => exact ⟨_, rfl⟩
          | decodeErr => exact absurd hrd (hnd p)
        | ok content =>
          dsimp only
          split
          · exact ⟨_, rfl⟩
          · exact ⟨_, rfl⟩
    refine ⟨hR, ?_⟩
    intro l
    induction l with
    | nil =>
      intro d
      refine ⟨d, ?_⟩
      unfold nestedMentions
      rfl
    | cons m rest ihl =>
      intro d
      obtain ⟨rd, hrd⟩ := hR d (String.mk m)
      obtain ⟨d2, hd2⟩ := ihl rd.2
      refine ⟨d2, ?_⟩
      unfold nestedMentions
      rw [hrd]
      exact hd2
  | succ f ihf =>
    have hR : ∀ d m, ∃ rd, resolveMention env (f + 1) d m = Except.ok rd := by
      intro d m
      unfold resolveMention
      cases hres : env.resolve m with
      | none => exact ⟨_, rfl⟩
      | some p =>
        dsimp only
        cases hrd : env.read p with
        | error e =>
          cases e with
          | osErr => exact ⟨_, rfl⟩
          | decodeErr => exact absurd hrd (hnd p)
        | ok content =>
          dsimp only
          split
          · exact ⟨_, rfl⟩
          · obtain ⟨d2, hd2⟩ :=
              ihf.2 (parse_mentions content.data) (addFile d p content).2
            rw [hd2]
            exact ⟨_, rfl⟩
    refine ⟨hR, ?_⟩
    intro l
    induction l with
    | nil =>
      intro d
      refine ⟨d, ?_⟩
      unfold nestedMentions
      rfl
    | cons m rest ihl =>
      intro d
      obtain ⟨rd, hrd⟩ := hR d (String.mk m)
      obtain ⟨d2, hd2⟩ := ihl rd.2
      refine ⟨d2, ?_⟩
      unfold nestedMentions
      rw [hrd]
      exact hd2

theorem loadMentionsAux_ok_get (env : MentionEnv) (fuel : Nat)
    (hok : ∀ d m, ∃ rd, resolveMention env fuel d m = Except.ok rd) :
    ∀ (ms : List Chars) (dedup : DedupState),
      ∃ res, loadMentionsAux env fuel dedup ms = Except.ok res ∧
        ∀ i m, ms.get? i = some m →
          ∃ d rd, resolveMention env fuel d (String.mk m) = Except.ok rd ∧
            res.1.get? i = some rd.1 := by
  intro ms
  induction ms with
  | nil =>
    intro dedup
    exact ⟨([], dedup), rfl, by intro i m h; simp at h⟩
  | cons a rest ih =>
    intro dedup
    obtain ⟨rd, hrd⟩ := hok dedup (String.mk a)
    obtain ⟨res, hres, hget⟩ := ih rd.2
    refine ⟨(rd.1 :: res.1, res.2), ?_, ?_⟩
    · show loadMentionsAux env fuel dedup (a :: rest) = _
      unfold loadMentionsAux
      rw [hrd]
      dsimp only
      rw [hres]
    · intro i m h
      cases i with
      | zero =>
        simp only [List.get?_cons_zero, Option.some.injEq] at h
        subst h
        exact ⟨dedup, rd, hrd, rfl⟩
      | succ j =>
        rw [List.get?_cons_succ] at h
        obtain ⟨d, rd2, h1, h2⟩ := hget j m h
        exact ⟨d, rd2, h1, by simpa using h2⟩

/-- C4 counterexample: `load_mentions` does raise on an unreadable file —
when a mention resolves to an existing file whose bytes are not valid
UTF-8 (here `@logo.png`), the `UnicodeDecodeError` of
`path.read_text(encoding="utf-8")` is caught neither by `read_with_retry`
nor by the `except (FileNotFoundError, OSError)` of `_resolve_mention`,
and the whole call errors instead of returning a result list. -/
theorem c4_decode_error_raises :
    load_mentions c4BinEnv c4BinText DedupState.init 10 =
      Except.error () := by
  have hp : parse_mentions c4BinText = [("@logo.png".data)] := by decide
  unfold load_mentions
  rw [hp]
  unfold loadMentionsAux
  rw [resolveMention_decodeErr c4BinEnv 10 DedupState.init _
    ("/base/logo.png") (by decide) rfl]

/-- C4 (amended): when no read raises `UnicodeDecodeError`,
`load_mentions` never raises, and every mention that fails to resolve to
a path, or resolves to a path whose read fails with the caught
`FileNotFoundError`/`OSError`, still gets a row in the returned list with
`found = false` and `error = none`; only the uncaught decode error
escapes. -/
theorem c4_missing_mention_silent_amended (env : MentionEnv) (text : Chars)
    (dedup : DedupState) (maxDepth : Nat) (i : Nat) (m : Chars)
    (hm : (parse_mentions text).get? i = some m)
    (hnd : ∀ p, env.read p ≠ Except.error ReadErr.decodeErr)
    (hfail : env.resolve (String.mk m) = none ∨
      ∃ p, env.resolve (String.mk m) = some p ∧
        env.read p = Except.error ReadErr.osErr) :
    ∃ res r,
      load_mentions env text dedup maxDepth = Except.ok res ∧
      res.1.get? i = some r ∧
      r.mention = String.mk m ∧ r.found = false ∧ r.error = none := by
  obtain ⟨res, hres, hget⟩ :=
    loadMentionsAux_ok_get env maxDepth
      (mentions_ok_of_no_decode env hnd maxDepth).1 (parse_mentions text)
      dedup
  obtain ⟨d, rd, hrd, hgi⟩ := hget i m hm
  rcases hfail with h | ⟨p, hp, hr⟩
  · have he := (resolveMention_miss env maxDepth d (String.mk m) h).symm.trans hrd
    injection he with he2
    rw [← he2] at hgi
    exact ⟨res, _, hres, hgi, rfl, rfl, rfl⟩
  · have he :=
      (resolveMention_osErr env maxDepth d (String.mk m) p hp hr).symm.trans hrd
    injection he with he2
    rw [← he2] at hgi
    exact ⟨res, _, hres, hgi, rfl, rfl, rfl⟩

/-- C4 witness: the amended statement at the concrete environment `c4Env`
(no decode errors; `@b` does not resolve), at the second mention of
`c4Text`. -/
theorem c4_missing_mention_silent_amended_witness :
    (parse_mentions c4Text).get? 1 = some ("@b".data) ∧
    ∃ res r,
      load_mentions c4Env c4Text DedupState.init 10 = Except.ok res ∧
      res.1.get? 1 = some r ∧
      r.mention = String.mk ("@b".data) ∧ r.found = false ∧ r.error = none :=
  ⟨by decide,
   c4_missing_mention_silent_amended c4Env c4Text DedupState.init 10 1
     ("@b".data) (by decide)
     (fun p h => by simp [c4Env] at h)
     (Or.inl (by decide))⟩


/-! ### C5 : code spans are excluded from mention extraction -/

theorem rfOut_append_no_tick (A t : Chars) (h : ('`') ∉ A) :
    rfOut (A ++ t) = A ++ rfOut t := by
  induction A with
  | nil => rfl
  | cons a A ih =>
    simp only [List.mem_cons, not_or] at h
    have ha : ¬ a = '`' := fun hh => h.1 hh.symm
    simp [rfOut, ha, ih h.2]

theorem rfOut_no_tick (A : Chars) (h : ('`') ∉ A) : rfOut A = A := by
  simpa [rfOut] using rfOut_append_no_tick A [] h

theorem rfLang_to_newline (L : Chars) (h : ('\n') ∉ L) :
    ∀ buf t : Chars,
      rfLang buf (L ++ '\n' :: t) = rfBody (buf ++ L ++ ['\n']) t := by
  induction L with
  | nil => intro buf t; simp [rfLang]
  | cons a L ih =>
    intro buf t
    simp only [List.mem_cons, not_or] at h
    have ha : ¬ a = '\n' := fun hh => h.1 hh.symm
    simp only [List.cons_append, rfLang, ha, if_false, List.append_eq]
    rw [ih h.2]
    simp

theorem rfBody_to_tick (B : Chars) (h : ('`') ∉ B) :
    ∀ buf t : Chars,
      rfBody buf (B ++ '`' :: t) = rfB1 (buf ++ B ++ ['`']) t := by
  induction B with
  | nil => intro buf t; simp [rfBody]
  | cons a B ih =>
    intro buf t
    simp only [List.mem_cons, not_or] at h
    have ha : ¬ a = '`' := fun hh => h.1 hh.symm
    simp only [List.cons_append, rfBody, ha, if_false, List.append_eq]
    rw [ih h.2]
    simp

theorem rfT1_no_tick (C : Chars) (h : ('`') ∉ C) : rfT1 C = '`' :: C := by
  cases C with
  | nil => rfl
  | cons c rest =>
    simp only [List.mem_cons, not_or] at h
    have hc : ¬ c = '`' := fun hh => h.1 hh.symm
    simp [rfT1, hc, rfOut_no_tick rest h.2]

theorem riOut_append_no_tick (A t : Chars) (h : ('`') ∉ A) :
    riOut (A ++ t) = A ++ riOut t := by
  induction A with
  | nil => rfl
  | cons a A ih =>
    simp only [List.mem_cons, not_or] at h
    have ha : ¬ a = '`' := fun hh => h.1 hh.symm
    simp [riOut, ha, ih h.2]

theorem riOut_no_tick (A : Chars) (h : ('`') ∉ A) : riOut A = A := by
  simpa [riOut] using riOut_append_no_tick A [] h

theorem riIn_to_tick (B : Chars) (h : ('`') ∉ B) :
    ∀ content t : Chars, content ≠ [] ∨ B ≠ [] →
      riIn content (B ++ '`' :: t) = riOut t := by
  induction B with
  | nil =>
    intro content t hne
    rcases hne with hc | hb
    · simp [riIn, hc]
    · exact absurd rfl hb
  | cons b B ih =>
    intro content t hne
    simp only [List.mem_cons, not_or] at h
    have hb : ¬ b = '`' := fun hh => h.1 hh.symm
    simp only [List.cons_append, riIn, hb, if_false]
    exact ih h.2 (content ++ [b]) t (Or.inl (by simp))

theorem rfOut_fence (A L B C : Chars) (hA : ('`') ∉ A) (hL : ('\n') ∉ L)
    (hB : ('`') ∉ B) :
    rfOut (A ++ '`' :: '`' :: '`' ::
        (L ++ '\n' :: (B ++ '`' :: '`' :: '`' :: C))) = A ++ rfOut C := by
  rw [rfOut_append_no_tick _ _ hA]
  have h1 : rfOut ('`' :: '`' :: '`' ::
      (L ++ '\n' :: (B ++ '`' :: '`' :: '`' :: C))) =
      rfLang ['`', '`', '`'] (L ++ '\n' :: (B ++ '`' :: '`' :: '`' :: C)) := by
    simp [rfOut, rfT1, rfT2]
  rw [h1, rfLang_to_newline L hL, rfBody_to_tick B hB]
  simp [rfB1, rfB2]

theorem rfOut_inline (A B C : Chars) (hA : ('`') ∉ A) (hB : ('`') ∉ B)
    (hC : ('`') ∉ C) (hBne : B ≠ []) :
    rfOut (A ++ '`' :: (B ++ '`' :: C)) = A ++ '`' :: (B ++ '`' :: C) := by
  rw [rfOut_append_no_tick _ _ hA]
  cases B with
  | nil => exact absurd rfl hBne
  | cons b B =>
    simp only [List.mem_cons, not_or] at hB
    have hb : ¬ b = '`' := fun hh => hB.1 hh.symm
    have h2 : rfOut (B ++ '`' :: C) = B ++ '`' :: C := by
      rw [rfOut_append_no_tick _ _ hB.2]
      have h3 : rfOut ('`' :: C) = rfT1 C := by simp [rfOut]
      rw [h3, rfT1_no_tick C hC]
    simp [rfOut, rfT1, hb, h2]

theorem removeCodeBlocks_fence (A L B C : Chars) (hA : ('`') ∉ A)
    (hL : ('\n') ∉ L) (hB : ('`') ∉ B) :
    removeCodeBlocks (A ++ '`' :: '`' :: '`' ::
        (L ++ '\n' :: (B ++ '`' :: '`' :: '`' :: C))) =
      removeCodeBlocks (A ++ C) := by
  unfold removeCodeBlocks
  rw [rfOut_fence A L B C hA hL hB, rfOut_append_no_tick A C hA]

theorem removeCodeBlocks_inline (A B C : Chars) (hA : ('`') ∉ A)
    (hB : ('`') ∉ B) (hC : ('`') ∉ C) (hBne : B ≠ []) :
    removeCodeBlocks (A ++ '`' :: (B ++ '`' :: C)) =
      removeCodeBlocks (A ++ C) := by
  unfold removeCodeBlocks
  rw [rfOut_inline A B C hA hB hC hBne, rfOut_append_no_tick A C hA,
    rfOut_no_tick C hC, riOut_append_no_tick _ _ hA,
    riOut_append_no_tick _ _ hA, riOut_no_tick C hC]
  have h4 : riOut ('`' :: (B ++ '`' :: C)) = riIn [] (B ++ '`' :: C) := by
    simp [riOut]
  rw [h4, riIn_to_tick B hB [] C (Or.inr hBne), riOut_no_tick C hC]

theorem dedupKeepFirst_nodup (l : List Chars) :
    ∀ seen, (dedupKeepFirst seen l).Nodup ∧
      ∀ x ∈ dedupKeepFirst seen l, x ∉ seen := by
  induction l with
  | nil => intro seen; simp [dedupKeepFirst]
  | cons a l ih =>
    intro seen
    by_cases h : a ∈ seen
    · simp only [dedupKeepFirst, if_pos h]
      exact ih seen
    · simp only [dedupKeepFirst, if_neg h]
      refine ⟨List.nodup_cons.mpr ⟨?_, (ih (a :: seen)).1⟩, ?_⟩
      · intro hmem
        exact ((ih (a :: seen)).2 a hmem) (List.mem_cons_self a seen)
      · intro x hx
        rcases List.mem_cons.mp hx with rfl | hm
        · exact h
        · intro hxs
          exact (ih (a :: seen)).2 x hm (List.mem_cons_of_mem a hxs)

/-- C5 counterexample: on the S4 input the first extracted mention is
`@outside.md.` — the trailing sentence period is captured, since `.` is in
the mention character class — so the extracted list is not the
`[@outside.md, @after.md]` the spec expects. -/
theorem c5_s4_counterexample :
    parse_mentions s4Text ≠ [("@outside.md".data), ("@after.md".data)] := by
  decide

theorem renderSegs_cons (s : Seg) (l : List Seg) :
    renderSegs (s :: l) = renderSeg s ++ renderSegs l := by
  simp [renderSegs]

theorem plainOf_cons_plain (a : Chars) (l : List Seg) :
    plainOf (Seg.plain a :: l) = a ++ plainOf l := by
  simp [plainOf]

theorem plainOf_cons_inline (b : Chars) (l : List Seg) :
    plainOf (Seg.inline b :: l) = plainOf l := by
  simp [plainOf]

theorem plainOf_cons_fenced (x y : Chars) (l : List Seg) :
    plainOf (Seg.fenced x y :: l) = plainOf l := by
  simp [plainOf]

theorem plainOf_no_tick (l : List Seg) (h : okSegs l = true) :
    ('`') ∉ plainOf l := by
  induction l with
  | nil => simp [plainOf]
  | cons s rest ih =>
    cases s with
    | plain a =>
      simp only [okSegs, Bool.and_eq_true, decide_eq_true_eq] at h
      rw [plainOf_cons_plain]
      intro hmem
      rcases List.mem_append.mp hmem with h1 | h2
      · exact h.1 h1
      · exact ih h.2 h2
    | inline b =>
      simp only [okSegs, Bool.and_eq_true, decide_eq_true_eq] at h
      rw [plainOf_cons_inline]
      exact ih h.2
    | fenced x y =>
      simp only [okSegs, Bool.and_eq_true, decide_eq_true_eq] at h
      rw [plainOf_cons_fenced]
      exact ih h.2

theorem renderSegs_head_safe (l : List Seg) (hsep : sepOk l = true)
    (hok : okSegs l = true) :
    renderSegs l = [] ∨ ∃ c t, renderSegs l = c :: t ∧ c ≠ '`' := by
  cases l with
  | nil => exact Or.inl rfl
  | cons s rest =>
    cases s with
    | plain a =>
      simp only [sepOk, decide_eq_true_eq] at hsep
      simp only [okSegs, Bool.and_eq_true, decide_eq_true_eq] at hok
      cases a with
      | nil => exact absurd rfl hsep
      | cons c a2 =>
        refine Or.inr ⟨c, a2 ++ renderSegs rest, ?_, ?_⟩
        · rw [renderSegs_cons]
          rfl
        · intro hc
          subst hc
          exact hok.1 (List.mem_cons_self _ _)
    | inline b => simp [sepOk] at hsep
    | fenced x y => simp [sepOk] at hsep

theorem rfT1_safe_head (Y : Chars)
    (h : Y = [] ∨ ∃ c t, Y = c :: t ∧ c ≠ '`') :
    rfT1 Y = '`' :: rfOut Y := by
  rcases h with rfl | ⟨c, t, rfl, hc⟩
  · rfl
  · simp [rfT1, rfOut, hc]

theorem rfOut_segs (segs : List Seg) (hok : okSegs segs = true) :
    rfOut (renderSegs segs) = renderSegs (removeFenced segs) := by
  induction segs with
  | nil => rfl
  | cons s rest ih =>
    cases s with
    | plain a =>
      simp only [okSegs, Bool.and_eq_true, decide_eq_true_eq] at hok
      show rfOut (renderSegs (Seg.plain a :: rest)) =
        renderSegs (Seg.plain a :: removeFenced rest)
      rw [renderSegs_cons, renderSegs_cons]
      show rfOut (a ++ renderSegs rest) = a ++ renderSegs (removeFenced rest)
      rw [rfOut_append_no_tick _ _ hok.1, ih hok.2]
    | inline b =>
      simp only [okSegs, Bool.and_eq_true, decide_eq_true_eq] at hok
      obtain ⟨⟨⟨hb0, hb⟩, hsep⟩, hrest⟩ := hok
      cases b with
      | nil => exact absurd rfl hb0
      | cons c b2 =>
        have hc : ¬ c = '`' :=
          fun hcc => hb (by subst hcc; exact List.mem_cons_self _ _)
        have hb2 : ('`') ∉ b2 := fun hm => hb (List.mem_cons_of_mem _ hm)
        show rfOut (renderSegs (Seg.inline (c :: b2) :: rest)) =
          renderSegs (Seg.inline (c :: b2) :: removeFenced rest)
        rw [renderSegs_cons, renderSegs_cons]
        have hshape : ∀ t : Chars, renderSeg (Seg.inline (c :: b2)) ++ t =
            '`' :: (c :: (b2 ++ '`' :: t)) := by
          intro t
          simp [renderSeg]
        rw [hshape (renderSegs rest), hshape (renderSegs (removeFenced rest))]
        have h1 : rfOut ('`' :: (c :: (b2 ++ '`' :: renderSegs rest))) =
            rfT1 (c :: (b2 ++ '`' :: renderSegs rest)) := by
          simp [rfOut]
        have h2 : rfT1 (c :: (b2 ++ '`' :: renderSegs rest)) =
            '`' :: c :: rfOut (b2 ++ '`' :: renderSegs rest) := by
          simp [rfT1, hc]
        rw [h1, h2, rfOut_append_no_tick _ _ hb2]
        have h3 : rfOut ('`' :: renderSegs rest) = rfT1 (renderSegs rest) := by
          simp [rfOut]
        rw [h3, rfT1_safe_head _ (renderSegs_head_safe rest hsep hrest),
          ih hrest]
    | fenced x y =>
      simp only [okSegs, Bool.and_eq_true, decide_eq_true_eq] at hok
      obtain ⟨⟨hl, hb⟩, hrest⟩ := hok
      show rfOut (renderSegs (Seg.fenced x y :: rest)) =
        renderSegs (removeFenced rest)
      rw [renderSegs_cons]
      have hshape : renderSeg (Seg.fenced x y) ++ renderSegs rest =
          '`' :: '`' :: '`' ::
            (x ++ '\n' :: (y ++ '`' :: '`' :: '`' :: renderSegs rest)) := by
        simp [renderSeg]
      rw [hshape]
      have hf := rfOut_fence [] x y (renderSegs rest) (by simp) hl hb
      simp only [List.nil_append] at hf
      rw [hf]
      exact ih hrest

theorem riOut_removeFenced (segs : List Seg) (hok : okSegs segs = true) :
    riOut (renderSegs (removeFenced segs)) = plainOf segs := by
  induction segs with
  | nil => rfl
  | cons s rest ih =>
    cases s with
    | plain a =>
      simp only [okSegs, Bool.and_eq_true, decide_eq_true_eq] at hok
      show riOut (renderSegs (Seg.plain a :: removeFenced rest)) =
        plainOf (Seg.plain a :: rest)
      rw [renderSegs_cons, plainOf_cons_plain]
      show riOut (a ++ renderSegs (removeFenced rest)) = a ++ plainOf rest
      rw [riOut_append_no_tick _ _ hok.1, ih hok.2]
    | inline b =>
      simp only [okSegs, Bool.and_eq_true, decide_eq_true_eq] at hok
      obtain ⟨⟨⟨hb0, hb⟩, hsep⟩, hrest⟩ := hok
      show riOut (renderSegs (Seg.inline b :: removeFenced rest)) =
        plainOf (Seg.inline b :: rest)
      rw [renderSegs_cons, plainOf_cons_inline]
      have hshape : renderSeg (Seg.inline b) ++
          renderSegs (removeFenced rest) =
          '`' :: (b ++ '`' :: renderSegs (removeFenced rest)) := by
        simp [renderSeg]
      rw [hshape]
      have h1 : riOut ('`' :: (b ++ '`' :: renderSegs (removeFenced rest))) =
          riIn [] (b ++ '`' :: renderSegs (removeFenced rest)) := by
        simp [riOut]
      rw [h1, riIn_to_tick b hb [] _ (Or.inr hb0), ih hrest]
    | fenced x y =>
      simp only [okSegs, Bool.and_eq_true, decide_eq_true_eq] at hok
      obtain ⟨⟨hl, hb⟩, hrest⟩ := hok
      show riOut (renderSegs (removeFenced rest)) =
        plainOf (Seg.fenced x y :: rest)
      rw [plainOf_cons_fenced]
      exact ih hrest

theorem parse_mentions_segs (segs : List Seg) (hok : okSegs segs = true) :
    parse_mentions (renderSegs segs) = parse_mentions (plainOf segs) := by
  unfold parse_mentions removeCodeBlocks
  rw [rfOut_segs segs hok, riOut_removeFenced segs hok,
    rfOut_no_tick _ (plainOf_no_tick segs hok),
    riOut_no_tick _ (plainOf_no_tick segs hok)]

/-- C5 (amended): on the S4 input `parse_mentions` extracts
`[@outside.md., @after.md]` (the trailing sentence period is part of the
first mention); the result list is always deduplicated
order-preservingly; and code spans contribute no mention: for every
well-formed decomposition of the input into plain segments, inline code
spans and fenced code blocks, the extracted mentions are exactly those of
the plain text with every code span removed. -/
theorem c5_code_spans_amended :
    parse_mentions s4Text = [("@outside.md.".data), ("@after.md".data)] ∧
    (∀ t : Chars, (parse_mentions t).Nodup) ∧
    (∀ segs : List Seg, okSegs segs = true →
      parse_mentions (renderSegs segs) = parse_mentions (plainOf segs)) := by
  refine ⟨by decide, ?_, ?_⟩
  · intro t
    exact (dedupKeepFirst_nodup (fmOut (removeCodeBlocks t)) []).1
  · intro segs hok
    exact parse_mentions_segs segs hok

/-- C5 witness: the span-elision law of the amended statement at the
decomposition of ``a `@x` b `@y` c`` — two inline spans with ordinary
plain text around them. -/
theorem c5_code_spans_amended_witness :
    parse_mentions (renderSegs [Seg.plain ("a ".data),
      Seg.inline ("@x".data), Seg.plain (" b ".data),
      Seg.inline ("@y".data), Seg.plain (" c".data)]) =
    parse_mentions (plainOf [Seg.plain ("a ".data),
      Seg.inline ("@x".data), Seg.plain (" b ".data),
      Seg.inline ("@y".data), Seg.plain (" c".data)]) :=
  c5_code_spans_amended.2.2 _ (by decide)


/-! ### C2 : cycle detection and the in-progress set -/

theorem filter_ne_cons_self (L : List String) (uri : String) (h : uri ∉ L) :
    (uri :: L).filter (fun u => u ≠ uri) = L := by
  have hhead : (uri :: L).filter (fun u => u ≠ uri) =
      L.filter (fun u => u ≠ uri) := by simp
  rw [hhead, List.filter_eq_self]
  intro a ha
  simp only [ne_eq, decide_not, Bool.not_eq_eq_eq_not, Bool.not_true,
    decide_eq_false_iff_not]
  exact fun he => h (he ▸ ha)

theorem pipeline_step (env : LoadEnv) (fuel : Nat)
    (hIL : ∀ (st : RegState) (l : List IncludeDirective),
      ((includesLoop env fuel st l).2).loading = st.loading) :
    (∀ b st, ((composeIncludes env fuel b st).2).loading = st.loading) ∧
    (∀ ai uri rn st, ((loadBody env fuel ai uri rn st).2).loading = st.loading) ∧
    (∀ ar ai x st, ((loadSingle env fuel ar ai x st).2).loading = st.loading) := by
  have hCI : ∀ b st, ((composeIncludes env fuel b st).2).loading = st.loading := by
    intro b st
    unfold composeIncludes
    rcases hil : includesLoop env fuel st b.includes with ⟨res, st1⟩
    have h1 : st1.loading = st.loading := by
      have h0 := hIL st b.includes
      rw [hil] at h0
      exact h0
    cases res with
    | error e => exact h1
    | ok included =>
      cases included with
      | nil => exact h1
      | cons first rest =>
        dsimp only
        repeat' split
        all_goals exact h1
  have hLB : ∀ ai uri rn st,
      ((loadBody env fuel ai uri rn st).2).loading = st.loading := by
    intro ai uri rn st
    unfold loadBody
    repeat' split
    all_goals try (dsimp only; repeat' split)
    all_goals first | rfl | (rw [hCI]; try rfl)
  have hLS : ∀ ar ai x st,
      ((loadSingle env fuel ar ai x st).2).loading = st.loading := by
    intro ar ai x st
    unfold loadSingle
    dsimp only
    by_cases hc : resolvedUriOf st x ∈ st.loading
    · rw [if_pos hc]
    · rw [if_neg hc]
      dsimp only
      rw [hLB]
      exact filter_ne_cons_self st.loading (resolvedUriOf st x) hc
  exact ⟨hCI, hLB, hLS⟩

theorem loadPipeline_loading (env : LoadEnv) (fuel : Nat) :
    (∀ (st : RegState) (l : List IncludeDirective),
      ((includesLoop env fuel st l).2).loading = st.loading) ∧
    (∀ b st, ((composeIncludes env fuel b st).2).loading = st.loading) ∧
    (∀ ai uri rn st, ((loadBody env fuel ai uri rn st).2).loading = st.loading) ∧
    (∀ ar ai x st, ((loadSingle env fuel ar ai x st).2).loading = st.loading) := by
  induction fuel with
  | zero =>
    have hIL : ∀ (st : RegState) (l : List IncludeDirective),
        ((includesLoop env 0 st l).2).loading = st.loading := by
      intro st l
      induction l generalizing st with
      | nil => unfold includesLoop; rfl
      | cons inc rest ih =>
        unfold includesLoop
        cases hpi : parseInclude inc with
        | none => exact ih st
        | some src =>
          dsimp only
          cases hrs : resolveIncludeSource env st.registry src with
          | none => exact ih st
          | some rsrc =>
            dsimp only
            rw [dif_pos rfl]
    exact ⟨hIL, pipeline_step env 0 hIL⟩
  | succ n ih =>
    have hLSn := ih.2.2.2
    have hIL : ∀ (st : RegState) (l : List IncludeDirective),
        ((includesLoop env (n + 1) st l).2).loading = st.loading := by
      intro st l
      induction l generalizing st with
      | nil => unfold includesLoop; rfl
      | cons inc rest ihl =>
        unfold includesLoop
        cases hpi : parseInclude inc with
        | none => exact ihl st
        | some src =>
          dsimp only
          cases hrs : resolveIncludeSource env st.registry src with
          | none => exact ihl st
          | some rsrc =>
            dsimp only
            rw [dif_neg (Nat.succ_ne_zero n)]
            simp only [Nat.add_sub_cancel]
            rcases hld : loadSingle env n true true rsrc st with ⟨res, st1⟩
            have h1 : st1.loading = st.loading := by
              have h0 := hLSn true true rsrc st
              rw [hld] at h0
              exact h0
            cases res with
            | error e =>
              cases e with
              | notFound => exact (ihl st1).trans h1
              | cycle => exact h1
              | loadError => exact h1
              | fuelOut => exact h1
            | ok b =>
              dsimp only
              rcases hil2 : includesLoop env (n + 1) st1 rest with ⟨res2, st2⟩
              have h2 : st2.loading = st1.loading := by
                have h0 := ihl st1
                rw [hil2] at h0
                exact h0
              cases res2 with
              | ok l2 => exact h2.trans h1
              | error e2 => exact h2.trans h1
    exact ⟨hIL, pipeline_step env (n + 1) hIL⟩

/-- C2: cycle detection and in-progress bookkeeping of `_load_single`: a
load whose resolved URI is already in the in-progress set fails with the
cycle error and leaves the state untouched; and every load — successful
or failing — returns with the in-progress set exactly as on entry, so a
top-level load entered with an empty set returns with an empty set. -/
theorem c2_cycle_detection (env : LoadEnv) (fuel : Nat) (ar ai : Bool)
    (nameOrUri : String) (st : RegState) :
    (resolvedUriOf st nameOrUri ∈ st.loading →
      loadSingle env fuel ar ai nameOrUri st =
        (Except.error LoadErr.cycle, st)) ∧
    ((loadSingle env fuel ar ai nameOrUri st).2).loading = st.loading ∧
    (st.loading = [] →
      ((loadSingle env fuel ar ai nameOrUri st).2).loading = []) := by
  refine ⟨?_, ?_, ?_⟩
  · intro hc
    unfold loadSingle
    dsimp only
    rw [if_pos hc]
  · exact (loadPipeline_loading env fuel).2.2.2 ar ai nameOrUri st
  · intro h0
    rw [(loadPipeline_loading env fuel).2.2.2 ar ai nameOrUri st, h0]

/-- C2 witness: the cycle error at a concrete re-entrant state, and the
empty in-progress set on return of a concrete top-level load. -/
theorem c2_cycle_detection_witness :
    loadSingle c2Env 1 true true ("u") (RegState.mk ["u"] []) =
      (Except.error LoadErr.cycle, RegState.mk ["u"] []) ∧
    ((loadSingle c2Env 0 true true ("v") (RegState.mk [] [])).2).loading = [] :=
  ⟨(c2_cycle_detection c2Env 1 true true ("u") (RegState.mk ["u"] [])).1
      (by decide),
   (c2_cycle_detection c2Env 0 true true ("v") (RegState.mk [] [])).2.2 rfl⟩


/-! ### C10 : compose never mutates its arguments -/

theorem length_setC (h : Heap) (r : Nat) (c : Container) :
    (setC h r c).length = h.length := List.length_set h r c

theorem get?_setC_ne (h : Heap) (r j : Nat) (c : Container) (hrj : r ≠ j) :
    (setC h r c).get? j = h.get? j := List.get?_set_ne c h hrj

theorem length_setB (bh : BHeap) (n : Nat) (f : BundleObj → BundleObj) :
    (setB bh n f).length = bh.length := List.length_set bh n _

theorem get?_setB_ne (bh : BHeap) (n i : Nat) (f : BundleObj → BundleObj)
    (hni : n ≠ i) : (setB bh n f).get? i = bh.get? i :=
  List.get?_set_ne _ bh hni

theorem getB_set_self (bh : BHeap) (n : Nat) (f : BundleObj → BundleObj)
    (hn : n < bh.length) : getB (setB bh n f) n = f (getB bh n) := by
  have hs : ((bh.set n (f (getB bh n))).get? n) = some (f (getB bh n)) := by
    rw [List.get?_set_eq]
    simp [List.get?_eq_getElem?, hn]
  show (((setB bh n f).get? n)).getD default = f (getB bh n)
  unfold setB
  rw [hs]
  rfl

theorem length_allocC (h : Heap) (c : Container) :
    ((allocC h c).1).length = h.length + 1 := by
  simp [allocC]

theorem get?_allocC (h : Heap) (c : Container) (j : Nat) (hj : j < h.length) :
    ((allocC h c).1).get? j = h.get? j := by
  show (h ++ [c]).get? j = h.get? j
  exact List.get?_append hj

theorem get?_append_left_lt {α : Type} (l l2 : List α) (j : Nat)
    (hj : j < l.length) : (l ++ l2).get? j = l.get? j := List.get?_append hj

theorem getB_append_self (bh : BHeap) (x : BundleObj) :
    getB (bh ++ [x]) bh.length = x := by
  show ((bh ++ [x]).get? bh.length).getD default = x
  rw [List.get?_concat_length]
  rfl

theorem composeStep_frame (bh : BHeap) (h : Heap) (n0 m0 oref : Nat)
    (hn : n0 < bh.length) (hm : m0 ≤ h.length)
    (g1 : m0 ≤ (getB bh n0).sourceBasePathsRef)
    (g2 : m0 ≤ (getB bh n0).agentsRef)
    (g3 : m0 ≤ (getB bh n0).contextRef)
    (g4 : m0 ≤ (getB bh n0).pendingContextRef) :
    (composeStep (bh, h, n0) oref).2.2 = n0 ∧
    (composeStep (bh, h, n0) oref).1.length = bh.length ∧
    h.length ≤ (composeStep (bh, h, n0) oref).2.1.length ∧
    (getB (composeStep (bh, h, n0) oref).1 n0).sourceBasePathsRef =
      (getB bh n0).sourceBasePathsRef ∧
    (getB (composeStep (bh, h, n0) oref).1 n0).agentsRef =
      (getB bh n0).agentsRef ∧
    (getB (composeStep (bh, h, n0) oref).1 n0).contextRef =
      (getB bh n0).contextRef ∧
    (getB (composeStep (bh, h, n0) oref).1 n0).pendingContextRef =
      (getB bh n0).pendingContextRef ∧
    (∀ i, i < n0 → (composeStep (bh, h, n0) oref).1.get? i = bh.get? i) ∧
    (∀ j, j < m0 → (composeStep (bh, h, n0) oref).2.1.get? j = h.get? j) := by
  rcases e : composeStep (bh, h, n0) oref with ⟨bhF, hF, rFF⟩
  unfold composeStep at e
  lift_lets at e
  extract_lets bh0 hh0 resultRef other osbp r1 rsbp1 rsbp2 hp1 rsbp3 hp2
    sbh1 r3 pa1 hp3 newSession sbh2 r4 pa2 hp4 newProviders sbh3 r5 pa3 hp5
    newTools sbh4 r6 pa4 hp6 newHooks sbh5 r7 hp7 rctx hp8 opc hp9
    sbh6 at e
  injection e with eb ehr
  injection ehr with eh er
  subst eb
  subst eh
  subst er
  have hrr : resultRef = n0 := rfl
  have hr1 : r1 = getB bh n0 := rfl
  have lb1 : sbh1.length = bh.length := by
    unfold_let sbh1; rw [length_setB]
  have lb2 : sbh2.length = bh.length := by
    unfold_let sbh2; rw [length_setB]; exact lb1
  have lb3 : sbh3.length = bh.length := by
    unfold_let sbh3; rw [length_setB]; exact lb2
  have lb4 : sbh4.length = bh.length := by
    unfold_let sbh4; rw [length_setB]; exact lb3
  have lb5 : sbh5.length = bh.length := by
    unfold_let sbh5; rw [length_setB]; exact lb4
  have lb6 : sbh6.length = bh.length := by
    unfold_let sbh6; rw [length_setB]; exact lb5
  have l1 : hp1.length = h.length := by
    unfold_let hp1; rw [length_setC]
  have l2 : hp2.length = h.length := by
    unfold_let hp2
    split
    · rw [length_setC]; exact l1
    · exact l1
  have l3 : hp3.length = h.length + 1 := by
    unfold_let hp3 pa1; rw [length_allocC]; omega
  have l4 : hp4.length = h.length + 2 := by
    unfold_let hp4 pa2; rw [length_allocC]; omega
  have l5 : hp5.length = h.length + 3 := by
    unfold_let hp5 pa3; rw [length_allocC]; omega
  have l6 : hp6.length = h.length + 4 := by
    unfold_let hp6 pa4; rw [length_allocC]; omega
  have l7 : hp7.length = h.length + 4 := by
    unfold_let hp7; rw [length_setC]; exact l6
  have l8 : hp8.length = h.length + 4 := by
    unfold_let hp8; rw [length_setC]; exact l7
  have l9 : hp9.length = h.length + 4 := by
    unfold_let hp9
    split
    · rw [length_setC]; exact l8
    · exact l8
  have p1 : (getB sbh1 n0).sourceBasePathsRef = (getB bh n0).sourceBasePathsRef ∧
      (getB sbh1 n0).agentsRef = (getB bh n0).agentsRef ∧
      (getB sbh1 n0).contextRef = (getB bh n0).contextRef ∧
      (getB sbh1 n0).pendingContextRef = (getB bh n0).pendingContextRef := by
    unfold_let sbh1
    rw [hrr, getB_set_self _ _ _ hn]
    exact ⟨rfl, rfl, rfl, rfl⟩
  have p2 : (getB sbh2 n0).sourceBasePathsRef = (getB sbh1 n0).sourceBasePathsRef ∧
      (getB sbh2 n0).agentsRef = (getB sbh1 n0).agentsRef ∧
      (getB sbh2 n0).contextRef = (getB sbh1 n0).contextRef ∧
      (getB sbh2 n0).pendingContextRef = (getB sbh1 n0).pendingContextRef := by
    unfold_let sbh2
    rw [hrr, getB_set_self _ _ _ (by omega)]
    exact ⟨rfl, rfl, rfl, rfl⟩
  have p3 : (getB sbh3 n0).sourceBasePathsRef = (getB sbh2 n0).sourceBasePathsRef ∧
      (getB sbh3 n0).agentsRef = (getB sbh2 n0).agentsRef ∧
      (getB sbh3 n0).contextRef = (getB sbh2 n0).contextRef ∧
      (getB sbh3 n0).pendingContextRef = (getB sbh2 n0).pendingContextRef := by
    unfold_let sbh3
    rw [hrr, getB_set_self _ _ _ (by omega)]
    exact ⟨rfl, rfl, rfl, rfl⟩
  have p4 : (getB sbh4 n0).sourceBasePathsRef = (getB sbh3 n0).sourceBasePathsRef ∧
      (getB sbh4 n0).agentsRef = (getB sbh3 n0).agentsRef ∧
      (getB sbh4 n0).contextRef = (getB sbh3 n0).contextRef ∧
      (getB sbh4 n0).pendingContextRef = (getB sbh3 n0).pendingContextRef := by
    unfold_let sbh4
    rw [hrr, getB_set_self _ _ _ (by omega)]
    exact ⟨rfl, rfl, rfl, rfl⟩
  have p5 : (getB sbh5 n0).sourceBasePathsRef = (getB sbh4 n0).sourceBasePathsRef ∧
      (getB sbh5 n0).agentsRef = (getB sbh4 n0).agentsRef ∧
      (getB sbh5 n0).contextRef = (getB sbh4 n0).contextRef ∧
      (getB sbh5 n0).pendingContextRef = (getB sbh4 n0).pendingContextRef := by
    unfold_let sbh5
    rw [hrr, getB_set_self _ _ _ (by omega)]
    exact ⟨rfl, rfl, rfl, rfl⟩
  have p6 : (getB sbh6 n0).sourceBasePathsRef = (getB sbh5 n0).sourceBasePathsRef ∧
      (getB sbh6 n0).agentsRef = (getB sbh5 n0).agentsRef ∧
      (getB sbh6 n0).contextRef = (getB sbh5 n0).contextRef ∧
      (getB sbh6 n0).pendingContextRef = (getB sbh5 n0).pendingContextRef := by
    unfold_let sbh6
    rw [hrr, getB_set_self _ _ _ (by omega)]
    exact ⟨rfl, rfl, rfl, rfl⟩
  have hP5 : (getB sbh5 n0).sourceBasePathsRef = (getB bh n0).sourceBasePathsRef ∧
      (getB sbh5 n0).agentsRef = (getB bh n0).agentsRef ∧
      (getB sbh5 n0).contextRef = (getB bh n0).contextRef ∧
      (getB sbh5 n0).pendingContextRef = (getB bh n0).pendingContextRef :=
    ⟨p5.1.trans (p4.1.trans (p3.1.trans (p2.1.trans p1.1))),
     p5.2.1.trans (p4.2.1.trans (p3.2.1.trans (p2.2.1.trans p1.2.1))),
     p5.2.2.1.trans (p4.2.2.1.trans (p3.2.2.1.trans (p2.2.2.1.trans p1.2.2.1))),
     p5.2.2.2.trans (p4.2.2.2.trans (p3.2.2.2.trans (p2.2.2.2.trans p1.2.2.2)))⟩
  have hP6 : (getB sbh6 n0).sourceBasePathsRef = (getB bh n0).sourceBasePathsRef ∧
      (getB sbh6 n0).agentsRef = (getB bh n0).agentsRef ∧
      (getB sbh6 n0).contextRef = (getB bh n0).contextRef ∧
      (getB sbh6 n0).pendingContextRef = (getB bh n0).pendingContextRef :=
    ⟨p6.1.trans hP5.1, p6.2.1.trans hP5.2.1, p6.2.2.1.trans hP5.2.2.1,
     p6.2.2.2.trans hP5.2.2.2⟩
  have hr7 : r7 = getB sbh5 n0 := by unfold_let r7; rw [hrr]
  have q1 : m0 ≤ r1.sourceBasePathsRef := by rw [hr1]; exact g1
  have q7 : m0 ≤ r7.agentsRef := by rw [hr7, hP5.2.1]; exact g2
  have q8 : m0 ≤ r7.contextRef := by rw [hr7, hP5.2.2.1]; exact g3
  have q9 : m0 ≤ r7.pendingContextRef := by rw [hr7, hP5.2.2.2]; exact g4
  have f1 : ∀ j, j < m0 → hp1.get? j = h.get? j := by
    intro j hj; unfold_let hp1
    exact get?_setC_ne _ _ _ _ (by omega)
  have f2 : ∀ j, j < m0 → hp2.get? j = hp1.get? j := by
    intro j hj; unfold_let hp2
    split
    · exact get?_setC_ne _ _ _ _ (by omega)
    · rfl
  have f3 : ∀ j, j < m0 → hp3.get? j = hp2.get? j := by
    intro j hj; unfold_let hp3 pa1
    exact get?_allocC _ _ _ (by omega)
  have f4 : ∀ j, j < m0 → hp4.get? j = hp3.get? j := by
    intro j hj; unfold_let hp4 pa2
    exact get?_allocC _ _ _ (by omega)
  have f5 : ∀ j, j < m0 → hp5.get? j = hp4.get? j := by
    intro j hj; unfold_let hp5 pa3
    exact get?_allocC _ _ _ (by omega)
  have f6 : ∀ j, j < m0 → hp6.get? j = hp5.get? j := by
    intro j hj; unfold_let hp6 pa4
    exact get?_allocC _ _ _ (by omega)
  have f7 : ∀ j, j < m0 → hp7.get? j = hp6.get? j := by
    intro j hj; unfold_let hp7
    exact get?_setC_ne _ _ _ _ (by omega)
  have f8 : ∀ j, j < m0 → hp8.get? j = hp7.get? j := by
    intro j hj; unfold_let hp8
    exact get?_setC_ne _ _ _ _ (by omega)
  have f9 : ∀ j, j < m0 → hp9.get? j = hp8.get? j := by
    intro j hj; unfold_let hp9
    split
    · exact get?_setC_ne _ _ _ _ (by omega)
    · rfl
  have fH : ∀ j, j < m0 → hp9.get? j = h.get? j := by
    intro j hj
    rw [f9 j hj, f8 j hj, f7 j hj, f6 j hj, f5 j hj, f4 j hj, f3 j hj,
      f2 j hj, f1 j hj]
  have fb1 : ∀ i, i < n0 → sbh1.get? i = bh.get? i := by
    intro i hi; unfold_let sbh1
    exact get?_setB_ne _ _ _ _ (by omega)
  have fb2 : ∀ i, i < n0 → sbh2.get? i = sbh1.get? i := by
    intro i hi; unfold_let sbh2
    exact get?_setB_ne _ _ _ _ (by omega)
  have fb3 : ∀ i, i < n0 → sbh3.get? i = sbh2.get? i := by
    intro i hi; unfold_let sbh3
    exact get?_setB_ne _ _ _ _ (by omega)
  have fb4 : ∀ i, i < n0 → sbh4.get? i = sbh3.get? i := by
    intro i hi; unfold_let sbh4
    exact get?_setB_ne _ _ _ _ (by omega)
  have fb5 : ∀ i, i < n0 → sbh5.get? i = sbh4.get? i := by
    intro i hi; unfold_let sbh5
    exact get?_setB_ne _ _ _ _ (by omega)
  have fb6 : ∀ i, i < n0 → sbh6.get? i = sbh5.get? i := by
    intro i hi; unfold_let sbh6
    exact get?_setB_ne _ _ _ _ (by omega)
  have fB : ∀ i, i < n0 → sbh6.get? i = bh.get? i := by
    intro i hi
    rw [fb6 i hi, fb5 i hi, fb4 i hi, fb3 i hi, fb2 i hi, fb1 i hi]
  refine ⟨hrr, lb6, ?_, hP6.1, hP6.2.1, hP6.2.2.1, hP6.2.2.2, fB, fH⟩
  show h.length ≤ hp9.length
  omega

theorem composeFold_frame (orefs : List Nat) :
    ∀ (bh : BHeap) (h : Heap) (n0 m0 : Nat),
      n0 < bh.length → m0 ≤ h.length →
      m0 ≤ (getB bh n0).sourceBasePathsRef →
      m0 ≤ (getB bh n0).agentsRef →
      m0 ≤ (getB bh n0).contextRef →
      m0 ≤ (getB bh n0).pendingContextRef →
      (orefs.foldl composeStep (bh, h, n0)).2.2 = n0 ∧
      (∀ i, i < n0 →
        (orefs.foldl composeStep (bh, h, n0)).1.get? i = bh.get? i) ∧
      (∀ j, j < m0 →
        (orefs.foldl composeStep (bh, h, n0)).2.1.get? j = h.get? j) := by
  induction orefs with
  | nil =>
    intro bh h n0 m0 _ _ _ _ _ _
    exact ⟨rfl, fun i _ => rfl, fun j _ => rfl⟩
  | cons o os ih =>
    intro bh h n0 m0 hn hm g1 g2 g3 g4
    obtain ⟨s1, s2, s3, s4, s5, s6, s7, s8, s9⟩ :=
      composeStep_frame bh h n0 m0 o hn hm g1 g2 g3 g4
    rcases hcs : composeStep (bh, h, n0) o with ⟨bh1, h1, rr1⟩
    rw [hcs] at s1 s2 s3 s4 s5 s6 s7 s8 s9
    dsimp only at s1 s2 s3 s4 s5 s6 s7 s8 s9
    subst s1
    simp only [List.foldl_cons]
    rw [hcs]
    obtain ⟨t1, t2, t3⟩ := ih bh1 h1 rr1 m0 (by omega) (by omega)
      (by rw [s4]; exact g1) (by rw [s5]; exact g2)
      (by rw [s6]; exact g3) (by rw [s7]; exact g4)
    exact ⟨t1, fun i hi => (t2 i hi).trans (s8 i hi),
      fun j hj => (t3 j hj).trans (s9 j hj)⟩

/-- C10: `Bundle.compose` never mutates its arguments: on the heap
embedding, every bundle object and every container that existed before
the call — in particular `self` and every composed bundle, with all their
fields — is unchanged when `compose` returns, and the returned reference
is the freshly constructed result object, allocated outside the original
heap. -/
theorem c10_compose_frame (bh : BHeap) (h : Heap) (selfRef : Nat)
    (otherRefs : List Nat) :
    (composePy bh h selfRef otherRefs).2.2 = bh.length ∧
    (∀ i, i < bh.length →
      (composePy bh h selfRef otherRefs).1.get? i = bh.get? i) ∧
    (∀ j, j < h.length →
      (composePy bh h selfRef otherRefs).2.1.get? j = h.get? j) := by
  rcases e : composePy bh h selfRef otherRefs with ⟨bhF, hF, rFF⟩
  unfold composePy at e
  lift_lets at e
  extract_lets self sbp0 initialBasePaths initialContext initialPending
    qa1 hq1 includesRef qa2 hq2 sessionRef qa3 hq3 providersRef qa4 hq4
    toolsRef qa5 hq5 hooksRef qa6 hq6 agentsRef qa7 hq7 contextRef qa8 hq8
    pendingRef qa9 hq9 sbpRef resultRef bhR at e
  have w1 : hq1.length = h.length + 1 := by
    unfold_let hq1 qa1; rw [length_allocC]
  have w2 : hq2.length = h.length + 2 := by
    unfold_let hq2 qa2; rw [length_allocC]; omega
  have w3 : hq3.length = h.length + 3 := by
    unfold_let hq3 qa3; rw [length_allocC]; omega
  have w4 : hq4.length = h.length + 4 := by
    unfold_let hq4 qa4; rw [length_allocC]; omega
  have w5 : hq5.length = h.length + 5 := by
    unfold_let hq5 qa5; rw [length_allocC]; omega
  have w6 : hq6.length = h.length + 6 := by
    unfold_let hq6 qa6; rw [length_allocC]; omega
  have w7 : hq7.length = h.length + 7 := by
    unfold_let hq7 qa7; rw [length_allocC]; omega
  have w8 : hq8.length = h.length + 8 := by
    unfold_let hq8 qa8; rw [length_allocC]; omega
  have w9 : hq9.length = h.length + 9 := by
    unfold_let hq9 qa9; rw [length_allocC]; omega
  have hRR : resultRef = bh.length := rfl
  have lbhR : bhR.length = bh.length + 1 := by
    unfold_let bhR; rw [List.length_append]; rfl
  have hv1 : sbpRef = hq8.length := rfl
  have hv2 : agentsRef = hq5.length := rfl
  have hv3 : contextRef = hq6.length := rfl
  have hv4 : pendingRef = hq7.length := rfl
  have hgbR : (getB bhR resultRef).sourceBasePathsRef = sbpRef ∧
      (getB bhR resultRef).agentsRef = agentsRef ∧
      (getB bhR resultRef).contextRef = contextRef ∧
      (getB bhR resultRef).pendingContextRef = pendingRef := by
    unfold_let bhR
    rw [hRR, getB_append_self]
    exact ⟨rfl, rfl, rfl, rfl⟩
  obtain ⟨m1, m2, m3⟩ := composeFold_frame otherRefs bhR hq9 resultRef h.length
    (by rw [hRR, lbhR]; exact Nat.lt_succ_self _)
    (by rw [w9]; exact Nat.le_add_right _ _)
    (by rw [hgbR.1, hv1, w8]; exact Nat.le_add_right _ _)
    (by rw [hgbR.2.1, hv2, w5]; exact Nat.le_add_right _ _)
    (by rw [hgbR.2.2.1, hv3, w6]; exact Nat.le_add_right _ _)
    (by rw [hgbR.2.2.2, hv4, w7]; exact Nat.le_add_right _ _)
  rw [e] at m1 m2 m3
  dsimp only at m1 m2 m3
  refine ⟨m1.trans hRR, ?_, ?_⟩
  · intro i hi
    rw [m2 i (by rw [hRR]; exact hi)]
    unfold_let bhR
    exact get?_append_left_lt _ _ _ hi
  · intro j hj
    rw [m3 j hj]
    have c9 : hq9.get? j = hq8.get? j := by
      unfold_let hq9 qa9
      exact get?_allocC _ _ _ (by rw [w8]; exact Nat.lt_add_right 8 hj)
    have c8 : hq8.get? j = hq7.get? j := by
      unfold_let hq8 qa8
      exact get?_allocC _ _ _ (by rw [w7]; exact Nat.lt_add_right 7 hj)
    have c7 : hq7.get? j = hq6.get? j := by
      unfold_let hq7 qa7
      exact get?_allocC _ _ _ (by rw [w6]; exact Nat.lt_add_right 6 hj)
    have c6 : hq6.get? j = hq5.get? j := by
      unfold_let hq6 qa6
      exact get?_allocC _ _ _ (by rw [w5]; exact Nat.lt_add_right 5 hj)
    have c5 : hq5.get? j = hq4.get? j := by
      unfold_let hq5 qa5
      exact get?_allocC _ _ _ (by rw [w4]; exact Nat.lt_add_right 4 hj)
    have c4 : hq4.get? j = hq3.get? j := by
      unfold_let hq4 qa4
      exact get?_allocC _ _ _ (by rw [w3]; exact Nat.lt_add_right 3 hj)
    have c3 : hq3.get? j = hq2.get? j := by
      unfold_let hq3 qa3
      exact get?_allocC _ _ _ (by rw [w2]; exact Nat.lt_add_right 2 hj)
    have c2 : hq2.get? j = hq1.get? j := by
      unfold_let hq2 qa2
      exact get?_allocC _ _ _ (by rw [w1]; exact Nat.lt_add_right 1 hj)
    have c1 : hq1.get? j = h.get? j := by
      unfold_let hq1 qa1; exact get?_allocC _ _ _ hj
    rw [c9, c8, c7, c6, c5, c4, c3, c2, c1]

/-- C10 witness: the frame law applied at a concrete one-object,
one-container heap. -/
theorem c10_compose_frame_witness :
    (composePy [default] [Container.dictS []] 0 [0]).2.2 = 1 ∧
    ((composePy [default] [Container.dictS []] 0 [0]).1).get? 0 =
      some default ∧
    ((composePy [default] [Container.dictS []] 0 [0]).2.1).get? 0 =
      some (Container.dictS []) :=
  ⟨(c10_compose_frame [default] [Container.dictS []] 0 [0]).1,
   ((c10_compose_frame [default] [Container.dictS []] 0 [0]).2.1 0
      (by decide)).trans rfl,
   ((c10_compose_frame [default] [Container.dictS []] 0 [0]).2.2 0
      (by decide)).trans rfl⟩

end AmplifierFoundation
